import Mathlib

set_option maxRecDepth 40000

/-!
Verification of the qiagen_upload repository against its specification.

The development shallowly embeds the Python sources:
* `qiagen_upload/qiagen_upload.py` — `CreateZIP`, `CreateXML` (manifest
  construction and the element-ordering step), `UploadToQiagen`;
* `toolbox.py` — `check_returncode` / `execute_subprocess_command`;
* `get_user_code/get_user_code.py` — the device-code flow;
* `logger.py` — `SensitiveFormatter._filter`;
* `qiagen_upload/__main__.py` — the upload entrypoint.

Python `sorted` with a key mixing `None` and `str` raises `TypeError`;
this partiality is modelled by comparators returning `Except Unit Ordering`
and a stable insertion sort in the `Except` monad, matching the stable,
ascending semantics of `sorted`.
-/

/-- Three-way lexicographic comparison of character lists, per code point —
the comparison Python uses on `str`. -/
def cmpChars : List Char → List Char → Ordering
  | [], [] => .eq
  | [], _ :: _ => .lt
  | _ :: _, [] => .gt
  | a :: as, b :: bs =>
    if a < b then .lt else if b < a then .gt else cmpChars as bs

theorem cmpChars_swap_of_gt :
    ∀ {x y : List Char}, cmpChars x y = .gt → cmpChars y x = .lt := by
  intro x
  induction x with
  | nil => intro y h; cases y <;> simp [cmpChars] at h
  | cons a as ih =>
    intro y h
    cases y with
    | nil => simp [cmpChars]
    | cons b bs =>
      simp only [cmpChars] at h ⊢
      by_cases h1 : a < b
      · rw [if_pos h1] at h; exact absurd h (by simp)
      · rw [if_neg h1] at h
        by_cases h2 : b < a
        · rw [if_pos h2]
        · rw [if_neg h2] at h
          rw [if_neg h2, if_neg h1]
          exact ih h

/-- Three-way comparison of strings, agreeing with Python `<`/`==` on `str`
(code-point lexicographic). -/
def cmpStr (a b : String) : Ordering :=
  cmpChars a.data b.data

theorem cmpStr_swap_of_gt {a b : String} (h : cmpStr a b = .gt) :
    cmpStr b a = .lt :=
  cmpChars_swap_of_gt h

/-- Comparison of the attribute components of Python sort keys.
`None == None` succeeds (equal); comparing `None` against a string raises
`TypeError`, modelled as `Except.error`. -/
def cmpAttr : Option String → Option String → Except Unit Ordering
  | none, none => .ok .eq
  | some a, some b => .ok (cmpStr a b)
  | _, _ => .error ()

theorem cmpAttr_swap_of_gt {a b : Option String} (h : cmpAttr a b = .ok .gt) :
    cmpAttr b a = .ok .lt := by
  cases a with
  | none => cases b <;> simp [cmpAttr] at h
  | some x =>
    cases b with
    | none => simp [cmpAttr] at h
    | some y =>
      simp only [cmpAttr, Except.ok.injEq] at h ⊢
      exact cmpStr_swap_of_gt h

/-- Stable insertion of `x` into `l` using a partial comparator, matching the
placement of Python's stable `sorted`: `x` goes before the first element it
does not compare greater than. An `error` from the comparator aborts. -/
def insertE (cmp : α → α → Except Unit Ordering) (x : α) :
    List α → Except Unit (List α)
  | [] => .ok [x]
  | y :: ys =>
    match cmp x y with
    | .error e => .error e
    | .ok .gt =>
      match insertE cmp x ys with
      | .error e => .error e
      | .ok zs => .ok (y :: zs)
    | .ok .lt => .ok (x :: y :: ys)
    | .ok .eq => .ok (x :: y :: ys)

/-- Stable sort in the `Except` monad (insertion sort, processing from the
right, hence stable for the placement rule of `insertE`). -/
def sortE (cmp : α → α → Except Unit Ordering) : List α → Except Unit (List α)
  | [] => .ok []
  | x :: xs =>
    match sortE cmp xs with
    | .error e => .error e
    | .ok ys => insertE cmp x ys

theorem insertE_perm (cmp : α → α → Except Unit Ordering) (x : α) :
    ∀ (l l' : List α), insertE cmp x l = .ok l' → l'.Perm (x :: l) := by
  intro l
  induction l with
  | nil =>
    intro l' h
    simp only [insertE, Except.ok.injEq] at h
    simp [← h]
  | cons y ys ih =>
    intro l' h
    simp only [insertE] at h
    cases hc : cmp x y with
    | error e => rw [hc] at h; exact absurd h (by simp)
    | ok o =>
      rw [hc] at h
      cases o with
      | lt => simp only [Except.ok.injEq] at h; rw [← h]
      | eq => simp only [Except.ok.injEq] at h; rw [← h]
      | gt =>
        cases hr : insertE cmp x ys with
        | error e => rw [hr] at h; exact absurd h (by simp)
        | ok zs =>
          rw [hr] at h
          simp only [Except.ok.injEq] at h
          rw [← h]
          exact ((ih zs hr).cons y).trans (List.Perm.swap x y ys)

theorem sortE_perm (cmp : α → α → Except Unit Ordering) :
    ∀ (l l' : List α), sortE cmp l = .ok l' → l'.Perm l := by
  intro l
  induction l with
  | nil =>
    intro l' h
    simp only [sortE, Except.ok.injEq] at h
    simp [← h]
  | cons x xs ih =>
    intro l' h
    simp only [sortE] at h
    cases hr : sortE cmp xs with
    | error e => rw [hr] at h; exact absurd h (by simp)
    | ok ys =>
      rw [hr] at h
      exact (insertE_perm cmp x ys l' h).trans ((ih ys hr).cons x)

/-- Adjacent-sortedness for a partial comparator: every adjacent pair
compares (successfully) as `lt` or `eq`. -/
def ChainLE (cmp : α → α → Except Unit Ordering) (l : List α) : Prop :=
  List.Chain' (fun a b => cmp a b = .ok .lt ∨ cmp a b = .ok .eq) l

theorem insertE_chain (cmp : α → α → Except Unit Ordering)
    (hswap : ∀ a b, cmp a b = .ok .gt → cmp b a = .ok .lt) (x : α) :
    ∀ (l l' : List α), ChainLE cmp l → insertE cmp x l = .ok l' →
      ChainLE cmp l' := by
  intro l
  induction l with
  | nil =>
    intro l' _ h
    simp only [insertE, Except.ok.injEq] at h
    rw [← h]
    exact List.chain'_singleton x
  | cons y ys ih =>
    intro l' hch h
    simp only [insertE] at h
    cases hc : cmp x y with
    | error e => rw [hc] at h; exact absurd h (by simp)
    | ok o =>
      rw [hc] at h
      cases o with
      | lt =>
        simp only [Except.ok.injEq] at h
        rw [← h]
        exact List.Chain'.cons (Or.inl hc) hch
      | eq =>
        simp only [Except.ok.injEq] at h
        rw [← h]
        exact List.Chain'.cons (Or.inr hc) hch
      | gt =>
        cases hr : insertE cmp x ys with
        | error e => rw [hr] at h; exact absurd h (by simp)
        | ok zs =>
          rw [hr] at h
          simp only [Except.ok.injEq] at h
          rw [← h]
          have hys : ChainLE cmp ys := hch.tail
          have hzs : ChainLE cmp zs := ih zs hys hr
          -- `zs` begins with `x` or with the old head of `ys`
          cases ys with
          | nil =>
            simp only [insertE, Except.ok.injEq] at hr
            rw [← hr]
            exact List.Chain'.cons (Or.inl (hswap x y hc)) (List.chain'_singleton x)
          | cons z zs' =>
            simp only [insertE] at hr
            cases hcz : cmp x z with
            | error e => rw [hcz] at hr; exact absurd hr (by simp)
            | ok oz =>
              rw [hcz] at hr
              cases oz with
              | lt =>
                simp only [Except.ok.injEq] at hr
                rw [← hr] at hzs
                rw [← hr]
                exact List.Chain'.cons (Or.inl (hswap x y hc)) hzs
              | eq =>
                simp only [Except.ok.injEq] at hr
                rw [← hr] at hzs
                rw [← hr]
                exact List.Chain'.cons (Or.inl (hswap x y hc)) hzs
              | gt =>
                cases hr2 : insertE cmp x zs' with
                | error e => rw [hr2] at hr; exact absurd hr (by simp)
                | ok ws =>
                  rw [hr2] at hr
                  simp only [Except.ok.injEq] at hr
                  rw [← hr]
                  rw [← hr] at hzs
                  have hyz : cmp y z = .ok .lt ∨ cmp y z = .ok .eq :=
                    (List.chain'_cons.mp hch).1
                  exact List.Chain'.cons hyz hzs

theorem sortE_chain (cmp : α → α → Except Unit Ordering)
    (hswap : ∀ a b, cmp a b = .ok .gt → cmp b a = .ok .lt) :
    ∀ (l l' : List α), sortE cmp l = .ok l' → ChainLE cmp l' := by
  intro l
  induction l with
  | nil =>
    intro l' h
    simp only [sortE, Except.ok.injEq] at h
    rw [← h]
    exact List.chain'_nil
  | cons x xs ih =>
    intro l' h
    simp only [sortE] at h
    cases hr : sortE cmp xs with
    | error e => rw [hr] at h; exact absurd h (by simp)
    | ok ys => rw [hr] at h; exact insertE_chain cmp hswap x ys l' (ih ys hr) h

/-- Sorting a list that is already adjacent-sorted succeeds and is the
identity (stability of `sortE`). -/
theorem sortE_of_chain (cmp : α → α → Except Unit Ordering) :
    ∀ (l : List α), ChainLE cmp l → sortE cmp l = .ok l := by
  intro l
  induction l with
  | nil => intro _; rfl
  | cons x xs ih =>
    intro hch
    have hxs : sortE cmp xs = .ok xs := ih hch.tail
    simp only [sortE, hxs]
    cases xs with
    | nil => rfl
    | cons y ys =>
      have hxy : cmp x y = .ok .lt ∨ cmp x y = .ok .eq :=
        (List.chain'_cons.mp hch).1
      rcases hxy with hxy | hxy <;> simp [insertE, hxy]

/-- `sortE` is idempotent on its successes. -/
theorem sortE_idem (cmp : α → α → Except Unit Ordering)
    (hswap : ∀ a b, cmp a b = .ok .gt → cmp b a = .ok .lt)
    (l l' : List α) (h : sortE cmp l = .ok l') : sortE cmp l' = .ok l' :=
  sortE_of_chain cmp l' (sortE_chain cmp hswap l l' h)

/-! ## XML element model (`xml.etree.ElementTree` as used by `CreateXML`) -/

/-- An XML element: tag, attributes, text, children
(mirroring `etree.Element`). -/
inductive Elem where
  | mk (tag : String) (attrs : List (String × String)) (text : Option String)
      (children : List Elem)

def Elem.tag : Elem → String
  | .mk t _ _ _ => t

def Elem.attrs : Elem → List (String × String)
  | .mk _ a _ _ => a

def Elem.text : Elem → Option String
  | .mk _ _ x _ => x

def Elem.children : Elem → List Elem
  | .mk _ _ _ c => c

/-- Python `element.get(key)`: the attribute value, or `None` when absent. -/
def Elem.get (e : Elem) (key : String) : Option String :=
  e.attrs.lookup key

/-- Replace the children of an element (Python `element[:] = ...`). -/
def Elem.setChildren : Elem → List Elem → Elem
  | .mk t a x _, c => .mk t a x c

theorem Elem.setChildren_self (e : Elem) : e.setChildren e.children = e := by
  cases e; rfl

theorem Elem.tag_setChildren (e : Elem) (c : List Elem) :
    (e.setChildren c).tag = e.tag := by cases e; rfl

theorem Elem.attrs_setChildren (e : Elem) (c : List Elem) :
    (e.setChildren c).attrs = e.attrs := by cases e; rfl

theorem Elem.text_setChildren (e : Elem) (c : List Elem) :
    (e.setChildren c).text = e.text := by cases e; rfl

theorem Elem.children_setChildren (e : Elem) (c : List Elem) :
    (e.setChildren c).children = c := by cases e; rfl

theorem Elem.get_setChildren (e : Elem) (c : List Elem) (k : String) :
    (e.setChildren c).get k = e.get k := by cases e; rfl

theorem Elem.setChildren_setChildren (e : Elem) (c c' : List Elem) :
    (e.setChildren c).setChildren c' = e.setChildren c' := by cases e; rfl

/-- The Python sort key `lambda child: (child.tag, child.get(attr))`,
compared with Python tuple semantics: tags first (total on strings); on tag
equality the attribute values, where `None` vs `str` raises. -/
def cmpByTagAttr (attr : String) (x y : Elem) : Except Unit Ordering :=
  if x.tag = y.tag then cmpAttr (x.get attr) (y.get attr)
  else .ok (cmpStr x.tag y.tag)

theorem cmpByTagAttr_swap (attr : String) (x y : Elem)
    (h : cmpByTagAttr attr x y = .ok .gt) :
    cmpByTagAttr attr y x = .ok .lt := by
  simp only [cmpByTagAttr] at h ⊢
  by_cases ht : x.tag = y.tag
  · rw [if_pos ht] at h
    rw [if_pos ht.symm]
    exact cmpAttr_swap_of_gt h
  · have ht' : y.tag ≠ x.tag := fun he => ht he.symm
    rw [if_neg ht] at h
    rw [if_neg ht']
    simp only [Except.ok.injEq] at h ⊢
    exact cmpStr_swap_of_gt h

/-- `mapE f` over a list in the `Except` monad. -/
def mapE (f : α → Except Unit β) : List α → Except Unit (List β)
  | [] => .ok []
  | x :: xs =>
    match f x with
    | .error e => .error e
    | .ok y =>
      match mapE f xs with
      | .error e => .error e
      | .ok ys => .ok (y :: ys)

theorem mapE_mem (f : α → Except Unit β) :
    ∀ (l : List α) (l' : List β), mapE f l = .ok l' →
      ∀ b ∈ l', ∃ a ∈ l, f a = .ok b := by
  intro l
  induction l with
  | nil =>
    intro l' h b hb
    simp only [mapE, Except.ok.injEq] at h
    rw [← h] at hb
    exact absurd hb (List.not_mem_nil b)
  | cons x xs ih =>
    intro l' h b hb
    simp only [mapE] at h
    cases hx : f x with
    | error e => rw [hx] at h; exact absurd h (by simp)
    | ok y =>
      rw [hx] at h
      cases hr : mapE f xs with
      | error e => rw [hr] at h; exact absurd h (by simp)
      | ok ys =>
        rw [hr] at h
        simp only [Except.ok.injEq] at h
        rw [← h] at hb
        rcases List.mem_cons.mp hb with hb | hb
        · exact ⟨x, List.mem_cons_self x xs, by rw [hx, hb]⟩
        · rcases ih ys hr b hb with ⟨a, ha, hfa⟩
          exact ⟨a, List.mem_cons_of_mem x ha, hfa⟩

/-- The second-layer ordering of `CreateXML.order_elements`: sort a child's
own children by `(tag, desc-attribute)`. -/
def sortSecondLayer (c : Elem) : Except Unit Elem :=
  match sortE (cmpByTagAttr "desc") c.children with
  | .error e => .error e
  | .ok cc => .ok (c.setChildren cc)

/-- `CreateXML.order_elements`: sort the root's children by
`(tag, name-attribute)`, then each resulting child's children by
`(tag, desc-attribute)`. A `TypeError` from a `None`-vs-`str` key
comparison aborts (the Python code catches it and exits). -/
def order_elements (root : Elem) : Except Unit Elem :=
  match sortE (cmpByTagAttr "name") root.children with
  | .error e => .error e
  | .ok cs =>
    match mapE sortSecondLayer cs with
    | .error e => .error e
    | .ok cs' => .ok (root.setChildren cs')

theorem mapE_sortSecondLayer_keys :
    ∀ (l l' : List Elem), mapE sortSecondLayer l = .ok l' →
      l'.map (fun c => (c.tag, c.attrs, c.text)) =
        l.map (fun c => (c.tag, c.attrs, c.text)) := by
  intro l
  induction l with
  | nil =>
    intro l' h
    simp only [mapE, Except.ok.injEq] at h
    rw [← h]
  | cons x xs ih =>
    intro l' h
    simp only [mapE] at h
    cases hx : sortSecondLayer x with
    | error e => rw [hx] at h; exact absurd h (by simp)
    | ok y =>
      rw [hx] at h
      cases hr : mapE sortSecondLayer xs with
      | error e => rw [hr] at h; exact absurd h (by simp)
      | ok ys =>
        rw [hr] at h
        simp only [Except.ok.injEq] at h
        rw [← h]
        simp only [List.map_cons, ih ys hr]
        have : y.tag = x.tag ∧ y.attrs = x.attrs ∧ y.text = x.text := by
          simp only [sortSecondLayer] at hx
          cases hs : sortE (cmpByTagAttr "desc") x.children with
          | error e => rw [hs] at hx; exact absurd hx (by simp)
          | ok cc =>
            rw [hs] at hx
            simp only [Except.ok.injEq] at hx
            rw [← hx]
            exact ⟨Elem.tag_setChildren x cc, Elem.attrs_setChildren x cc,
              Elem.text_setChildren x cc⟩
        rw [this.1, this.2.1, this.2.2]

/-- `ChainLE` for the sort keys is invariant under replacing children,
since the keys read only tags and attributes. -/
theorem chainLE_congr_keys (attr : String) :
    ∀ (l l' : List Elem),
      l'.map (fun c => (c.tag, c.attrs, c.text)) =
        l.map (fun c => (c.tag, c.attrs, c.text)) →
      ChainLE (cmpByTagAttr attr) l → ChainLE (cmpByTagAttr attr) l' := by
  intro l
  induction l with
  | nil =>
    intro l' h _
    cases l' with
    | nil => exact List.chain'_nil
    | cons a as => simp at h
  | cons x xs ih =>
    intro l' h hch
    cases l' with
    | nil => exact List.chain'_nil
    | cons y ys =>
      simp only [List.map_cons, List.cons.injEq, Prod.mk.injEq] at h
      have hkey : y.tag = x.tag ∧ y.attrs = x.attrs := ⟨h.1.1, h.1.2.1⟩
      have htail : ChainLE (cmpByTagAttr attr) ys := ih ys h.2 hch.tail
      cases ys with
      | nil => exact List.chain'_singleton y
      | cons z zs =>
        cases xs with
        | nil => simp at h
        | cons w ws =>
          have hzw : z.tag = w.tag ∧ z.attrs = w.attrs := by
            have := h.2
            simp only [List.map_cons, List.cons.injEq, Prod.mk.injEq] at this
            exact ⟨this.1.1, this.1.2.1⟩
          have hxw : cmpByTagAttr attr x w = .ok .lt ∨
              cmpByTagAttr attr x w = .ok .eq := (List.chain'_cons.mp hch).1
          have hcmp : cmpByTagAttr attr y z = cmpByTagAttr attr x w := by
            simp only [cmpByTagAttr, Elem.get, hkey.1, hkey.2, hzw.1, hzw.2]
          exact List.Chain'.cons (hcmp ▸ hxw) htail

/-- `mapE` of a pointwise fixed function is the identity. -/
theorem mapE_fix (f : α → Except Unit α) :
    ∀ (l : List α), (∀ c ∈ l, f c = .ok c) → mapE f l = .ok l := by
  intro l
  induction l with
  | nil => intro _; rfl
  | cons d ds ihd =>
    intro hfix
    simp only [mapE, hfix d (List.mem_cons_self d ds),
      ihd (fun c hc => hfix c (List.mem_cons_of_mem d hc))]

/-- Inversion of a successful `order_elements`. -/
theorem order_elements_inv (root root' : Elem)
    (h : order_elements root = .ok root') :
    ∃ cs cs', sortE (cmpByTagAttr "name") root.children = .ok cs ∧
      mapE sortSecondLayer cs = .ok cs' ∧ root' = root.setChildren cs' := by
  unfold order_elements at h
  split at h
  · exact absurd h (by simp)
  · rename_i cs h1
    split at h
    · exact absurd h (by simp)
    · rename_i cs' h2
      simp only [Except.ok.injEq] at h
      exact ⟨cs, cs', h1, h2, h.symm⟩

/-- Children of a result of `order_elements` are adjacent-sorted at both
layers; applying the ordering again therefore reproduces the tree. -/
theorem order_elements_idem_aux (root root' : Elem)
    (h : order_elements root = .ok root') :
    order_elements root' = .ok root' := by
  rcases order_elements_inv root root' h with ⟨cs, cs', h1, h2, hroot'⟩
  have hchain : ChainLE (cmpByTagAttr "name") cs :=
    sortE_chain _ (cmpByTagAttr_swap "name") root.children cs h1
  have hkeys := mapE_sortSecondLayer_keys cs cs' h2
  have hchain' : ChainLE (cmpByTagAttr "name") cs' :=
    chainLE_congr_keys "name" cs cs' hkeys hchain
  have hchildren : root'.children = cs' := by
    rw [hroot']; exact Elem.children_setChildren root cs'
  have hsort1 : sortE (cmpByTagAttr "name") root'.children = .ok cs' := by
    rw [hchildren]; exact sortE_of_chain _ cs' hchain'
  -- each element of cs' has adjacent-sorted children, so the second-layer
  -- pass is the identity
  have hfix : ∀ c ∈ cs', sortSecondLayer c = .ok c := by
    intro c hc
    rcases mapE_mem sortSecondLayer cs cs' h2 c hc with ⟨a, _, hfa⟩
    unfold sortSecondLayer at hfa
    split at hfa
    · exact absurd hfa (by simp)
    · rename_i cc hs
      simp only [Except.ok.injEq] at hfa
      have hcc : ChainLE (cmpByTagAttr "desc") cc :=
        sortE_chain _ (cmpByTagAttr_swap "desc") a.children cc hs
      have hc_children : c.children = cc := by
        rw [← hfa]; exact Elem.children_setChildren a cc
      unfold sortSecondLayer
      rw [hc_children, sortE_of_chain _ cc hcc]
      show Except.ok (c.setChildren cc) = Except.ok c
      rw [← hc_children, Elem.setChildren_self]
  have hmap2 : mapE sortSecondLayer cs' = .ok cs' := mapE_fix _ cs' hfix
  have e1 : order_elements root' =
      (match mapE sortSecondLayer cs' with
       | Except.error e => Except.error e
       | Except.ok x => Except.ok (root'.setChildren x)) := by
    unfold order_elements
    rw [hsort1]
  have e2 : root'.setChildren cs' = root' := by
    rw [hroot', Elem.setChildren_setChildren]
  rw [e1, hmap2]
  show Except.ok (root'.setChildren cs') = Except.ok root'
  rw [e2]

/-! ## Claims C1 and C6: the manifest ordering step -/

/-- C1 (amended). When `CreateXML.order_elements` succeeds, the root's
direct children are sorted by `(tag, name-attribute)` and each direct
child's own children are sorted by `(tag, desc-attribute)`, the ordering
being a (stable) permutation at both levels. A comparison between a
missing attribute and a present one on children with the same tag does
not order the missing one first: it raises `TypeError` and the step
fails (see the counterexample `order_elements_missing_attr_error`). -/
theorem order_elements_sorts (root root' : Elem)
    (h : order_elements root = .ok root') :
    ChainLE (cmpByTagAttr "name") root'.children ∧
    (∀ c ∈ root'.children, ChainLE (cmpByTagAttr "desc") c.children) ∧
    (root'.children.map (fun c => (c.tag, c.attrs, c.text))).Perm
      (root.children.map (fun c => (c.tag, c.attrs, c.text))) ∧
    (∀ c' ∈ root'.children, ∃ c ∈ root.children,
      c'.tag = c.tag ∧ c'.attrs = c.attrs ∧ c'.text = c.text ∧
        c'.children.Perm c.children) := by
  rcases order_elements_inv root root' h with ⟨cs, cs', h1, h2, hroot'⟩
  have hchildren : root'.children = cs' := by
    rw [hroot']; exact Elem.children_setChildren root cs'
  have hchain : ChainLE (cmpByTagAttr "name") cs :=
    sortE_chain _ (cmpByTagAttr_swap "name") root.children cs h1
  have hkeys := mapE_sortSecondLayer_keys cs cs' h2
  have hperm : cs.Perm root.children := sortE_perm _ root.children cs h1
  have hsecond : ∀ c' ∈ cs', ∃ c ∈ root.children,
      c'.tag = c.tag ∧ c'.attrs = c.attrs ∧ c'.text = c.text ∧
        c'.children.Perm c.children ∧
        ChainLE (cmpByTagAttr "desc") c'.children := by
    intro c' hc'
    rcases mapE_mem sortSecondLayer cs cs' h2 c' hc' with ⟨a, ha, hfa⟩
    unfold sortSecondLayer at hfa
    split at hfa
    · exact absurd hfa (by simp)
    · rename_i cc hs
      simp only [Except.ok.injEq] at hfa
      refine ⟨a, (hperm.mem_iff).mp ha, ?_, ?_, ?_, ?_, ?_⟩
      · rw [← hfa]; exact Elem.tag_setChildren a cc
      · rw [← hfa]; exact Elem.attrs_setChildren a cc
      · rw [← hfa]; exact Elem.text_setChildren a cc
      · rw [← hfa, Elem.children_setChildren]
        exact sortE_perm _ a.children cc hs
      · rw [← hfa, Elem.children_setChildren]
        exact sortE_chain _ (cmpByTagAttr_swap "desc") a.children cc hs
  refine ⟨?_, ?_, ?_, ?_⟩
  · rw [hchildren]
    exact chainLE_congr_keys "name" cs cs' hkeys hchain
  · intro c hc
    rw [hchildren] at hc
    exact ((hsecond c hc).choose_spec).2.2.2.2.2
  · rw [hchildren, hkeys]
    exact hperm.map _
  · intro c' hc'
    rw [hchildren] at hc'
    rcases hsecond c' hc' with ⟨c, hc, h1', h2', h3', h4', _⟩
    exact ⟨c, hc, h1', h2', h3', h4'⟩

/-- Concrete tree on which the ordering succeeds; used by the witness of
`order_elements_sorts`. -/
def sortsWitnessRoot : Elem :=
  Elem.mk "r" [] none
    [Elem.mk "b" [] none [],
     Elem.mk "a" [] none [Elem.mk "y" [] none [], Elem.mk "x" [] none []]]

/-- The ordering of `sortsWitnessRoot`. -/
def sortsWitnessRoot' : Elem :=
  Elem.mk "r" [] none
    [Elem.mk "a" [] none [Elem.mk "x" [] none [], Elem.mk "y" [] none []],
     Elem.mk "b" [] none []]

theorem order_elements_sorts_witness :
    ChainLE (cmpByTagAttr "name") sortsWitnessRoot'.children ∧
    (∀ c ∈ sortsWitnessRoot'.children,
      ChainLE (cmpByTagAttr "desc") c.children) ∧
    ((sortsWitnessRoot'.children.map (fun c => (c.tag, c.attrs, c.text))).Perm
      (sortsWitnessRoot.children.map (fun c => (c.tag, c.attrs, c.text)))) ∧
    (∀ c' ∈ sortsWitnessRoot'.children, ∃ c ∈ sortsWitnessRoot.children,
      c'.tag = c.tag ∧ c'.attrs = c.attrs ∧ c'.text = c.text ∧
        c'.children.Perm c.children) :=
  order_elements_sorts sortsWitnessRoot sortsWitnessRoot' (by rfl)

/-- Tree with two same-tag children, one carrying the `name` sort
attribute and one missing it. -/
def missingAttrRoot : Elem :=
  Elem.mk "root" [] none
    [Elem.mk "T" [] none [], Elem.mk "T" [("name", "v")] none []]

/-- C1 counterexample: on a tree with two same-tag children where exactly
one carries the `name` attribute, the ordering step does not complete —
the `None`-vs-`str` key comparison raises and `order_elements` fails
(the Python code catches the `TypeError` and exits), contradicting the
claim that such a child is ordered first without error. -/
theorem order_elements_missing_attr_error :
    order_elements missingAttrRoot = .error () := by rfl

/-- C6: the ordering step is idempotent — whenever `order_elements`
succeeds, applying it to its own result succeeds and returns the result
unchanged (same child sequences at both sorted levels). -/
theorem order_elements_idempotent (root root' : Elem)
    (h : order_elements root = .ok root') :
    order_elements root' = .ok root' :=
  order_elements_idem_aux root root' h

/-- Concrete tree for the idempotence witness. -/
def idemWitnessRoot : Elem :=
  Elem.mk "top" [] none
    [Elem.mk "q" [("name", "2")] none [],
     Elem.mk "q" [("name", "1")] none [Elem.mk "z" [] none []]]

/-- Ordering of `idemWitnessRoot`. -/
def idemWitnessRoot' : Elem :=
  Elem.mk "top" [] none
    [Elem.mk "q" [("name", "1")] none [Elem.mk "z" [] none []],
     Elem.mk "q" [("name", "2")] none []]

theorem order_elements_idempotent_witness :
    order_elements idemWitnessRoot' = .ok idemWitnessRoot' :=
  order_elements_idempotent idemWitnessRoot idemWitnessRoot' (by rfl)

/-! ## Claim C5: manifest contents built by `CreateXML` -/

/-- The namespace prefix `ElementTree` puts on tag names
(`"{http://qci.qiagen.com/xsd/interpret}" + element_name`). -/
def interpretNS : String := "\x7bhttp://qci.qiagen.com/xsd/interpret\x7d"

/-- Modelled from the spec: the repository file
`templates/sample_upload_template.xml` is not under `src/`. Per the spec,
the template is a fixed XML tree in the namespace
`http://qci.qiagen.com/xsd/interpret` whose root has a `Sample` element
child, which in turn has a `VariantsFilenames` child (found by
`CreateXML.get_xml_element` / `get_sample_subelement`); the
`VariantsFilename` entries are appended by the code, so the template's
`VariantsFilenames` starts with none. -/
def sample_upload_template : Elem :=
  Elem.mk (interpretNS ++ "DataPackage") [] none
    [Elem.mk (interpretNS ++ "Sample") [] none
      [Elem.mk (interpretNS ++ "VariantsFilenames") [] none []]]

/-- `f"{self.sample_name}_CombinedVariantOutput.tsv"`. -/
def combinedvariants_tsv (sample_name : String) : String :=
  sample_name ++ "_CombinedVariantOutput.tsv"

/-- `f"{self.sample_name}_CopyNumberVariants.vcf"`. -/
def copynumbervariants_vcf (sample_name : String) : String :=
  sample_name ++ "_CopyNumberVariants.vcf"

/-- `f"{self.sample_name}_MergedSmallVariants.genome.vcf"`. -/
def mergedvariants_vcf (sample_name : String) : String :=
  sample_name ++ "_MergedSmallVariants.genome.vcf"

/-- `CreateXML.variants_filenames`. -/
def variants_filenames (sample_name : String) : List String :=
  [combinedvariants_tsv sample_name, copynumbervariants_vcf sample_name,
   mergedvariants_vcf sample_name]

/-- `etree.SubElement(parent, tag)` followed by setting `.text`:
append a child, in document order. -/
def Elem.appendChild (e : Elem) (c : Elem) : Elem :=
  e.setChildren (e.children ++ [c])

/-- Apply `f` to the first child carrying `tag` (mutating the element
`find` returned, as the Python code does). -/
def updateFirstAux (tag : String) (f : Elem → Elem) : List Elem → List Elem
  | [] => []
  | c :: cs => if c.tag = tag then f c :: cs else c :: updateFirstAux tag f cs

def updateFirstChild (e : Elem) (tag : String) (f : Elem → Elem) : Elem :=
  e.setChildren (updateFirstAux tag f e.children)

/-- `element.find("{ns}" + tag)`: the first child with the given tag. -/
def Elem.findChild (e : Elem) (tag : String) : Option Elem :=
  e.children.find? (fun c => c.tag == tag)

/-- `CreateXML.add_sample_name`: append a `Name` subelement with
text = sample name to the `Sample` element. -/
def add_sample_name (sample_name : String) (root : Elem) : Elem :=
  updateFirstChild root (interpretNS ++ "Sample")
    (fun smp => smp.appendChild (Elem.mk "Name" [] (some sample_name) []))

/-- `CreateXML.add_sample_subjectid`: append a `SubjectId` subelement with
text = sample name to the `Sample` element. -/
def add_sample_subjectid (sample_name : String) (root : Elem) : Elem :=
  updateFirstChild root (interpretNS ++ "Sample")
    (fun smp => smp.appendChild (Elem.mk "SubjectId" [] (some sample_name) []))

/-- `CreateXML.add_variants_filenames`: append one `VariantsFilename`
subelement per entry of `variants_filenames`, in order, to the
`VariantsFilenames` subelement of `Sample`. -/
def add_variants_filenames (sample_name : String) (root : Elem) : Elem :=
  (variants_filenames sample_name).foldl
    (fun r fn =>
      updateFirstChild r (interpretNS ++ "Sample")
        (fun smp => updateFirstChild smp (interpretNS ++ "VariantsFilenames")
          (fun vfs => vfs.appendChild (Elem.mk "VariantsFilename" [] (some fn) []))))
    root

/-- The tree `CreateXML.__init__` has built right before `order_elements`. -/
def createXML_tree (sample_name : String) : Elem :=
  add_variants_filenames sample_name
    (add_sample_subjectid sample_name
      (add_sample_name sample_name sample_upload_template))

/-- The manifest `CreateXML` writes: the built tree after the ordering
step. -/
def createXML_manifest (sample_name : String) : Except Unit Elem :=
  order_elements (createXML_tree sample_name)

theorem str_data_append (s t : String) : (s ++ t).data = s.data ++ t.data := by
  cases s; cases t; rfl

theorem str_append_ne (s : String) {a b : String} (h : a.data ≠ b.data) :
    s ++ a ≠ s ++ b := by
  intro he
  have hd := congrArg String.data he
  rw [str_data_append, str_data_append] at hd
  exact h (List.append_cancel_left hd)

/-- C5: for every sample name `S`, the manifest built by `CreateXML`
holds a `Name` child and a `SubjectId` child of the `Sample` element with
text `S`, and exactly the three `VariantsFilename` entries
`S_CombinedVariantOutput.tsv`, `S_CopyNumberVariants.vcf`,
`S_MergedSmallVariants.genome.vcf` under `VariantsFilenames`, each
appearing exactly once. -/
theorem createXML_manifest_contents (s : String) :
    ∃ root', createXML_manifest s = .ok root' ∧
    ∃ smp, root'.findChild (interpretNS ++ "Sample") = some smp ∧
      ((smp.children.filter (fun c => c.tag == "Name")).map Elem.text
        = [some s]) ∧
      ((smp.children.filter (fun c => c.tag == "SubjectId")).map Elem.text
        = [some s]) ∧
      ∃ vfs, smp.findChild (interpretNS ++ "VariantsFilenames") = some vfs ∧
        vfs.children.map Elem.tag =
          ["VariantsFilename", "VariantsFilename", "VariantsFilename"] ∧
        vfs.children.map Elem.text =
          [some (combinedvariants_tsv s), some (copynumbervariants_vcf s),
           some (mergedvariants_vcf s)] ∧
        (vfs.children.map Elem.text).count (some (combinedvariants_tsv s)) = 1 ∧
        (vfs.children.map Elem.text).count (some (copynumbervariants_vcf s)) = 1 ∧
        (vfs.children.map Elem.text).count (some (mergedvariants_vcf s)) = 1 := by
  have h12 : combinedvariants_tsv s ≠ copynumbervariants_vcf s :=
    str_append_ne s (by decide)
  have h13 : combinedvariants_tsv s ≠ mergedvariants_vcf s :=
    str_append_ne s (by decide)
  have h23 : copynumbervariants_vcf s ≠ mergedvariants_vcf s :=
    str_append_ne s (by decide)
  refine ⟨_, rfl, _, rfl, rfl, rfl, _, rfl, rfl, rfl, ?_, ?_, ?_⟩
  · show List.count (some (combinedvariants_tsv s))
        [some (combinedvariants_tsv s), some (copynumbervariants_vcf s),
         some (mergedvariants_vcf s)] = 1
    simp [List.count_cons, h12, h13]
  · show List.count (some (copynumbervariants_vcf s))
        [some (combinedvariants_tsv s), some (copynumbervariants_vcf s),
         some (mergedvariants_vcf s)] = 1
    simp [List.count_cons, Ne.symm h12, h23]
  · show List.count (some (mergedvariants_vcf s))
        [some (combinedvariants_tsv s), some (copynumbervariants_vcf s),
         some (mergedvariants_vcf s)] = 1
    simp [List.count_cons, Ne.symm h13, Ne.symm h23]

/-! ## Claim C3: `CreateZIP.write_output_zip` -/

/-- Python `needle in hay` on strings: substring containment. -/
def containsSubChars (needle : List Char) : List Char → Bool
  | [] => needle.isEmpty
  | c :: cs => needle.isPrefixOf (c :: cs) || containsSubChars needle cs

theorem isPrefixOf_exists :
    ∀ (p l : List Char), p.isPrefixOf l = true ↔ ∃ r, l = p ++ r := by
  intro p
  induction p with
  | nil =>
    intro l
    simp [List.isPrefixOf]
  | cons a as ih =>
    intro l
    cases l with
    | nil => simp [List.isPrefixOf]
    | cons b bs =>
      simp only [List.isPrefixOf, Bool.and_eq_true, beq_iff_eq, ih bs,
        List.cons_append, List.cons.injEq]
      constructor
      · rintro ⟨hab, r, hr⟩
        exact ⟨r, hab.symm, hr⟩
      · rintro ⟨r, hab, hr⟩
        exact ⟨hab.symm, r, hr⟩

theorem containsSubChars_iff (needle : List Char) :
    ∀ (hay : List Char),
      containsSubChars needle hay = true ↔ ∃ l r, hay = l ++ needle ++ r := by
  intro hay
  induction hay with
  | nil =>
    simp only [containsSubChars, List.isEmpty_iff]
    constructor
    · intro h; exact ⟨[], [], by simp [h]⟩
    · rintro ⟨l, r, hr⟩
      rcases List.append_eq_nil.mp (List.append_eq_nil.mp hr.symm).1 with ⟨-, h2⟩
      exact h2
  | cons c cs ih =>
    simp only [containsSubChars, Bool.or_eq_true, isPrefixOf_exists, ih]
    constructor
    · rintro (⟨r, hr⟩ | ⟨l, r, hr⟩)
      · exact ⟨[], r, by simp [hr]⟩
      · exact ⟨c :: l, r, by simp [hr]⟩
    · rintro ⟨l, r, hr⟩
      cases l with
      | nil => exact Or.inl ⟨r, by simpa using hr⟩
      | cons d ds =>
        simp only [List.cons_append, List.cons.injEq] at hr
        exact Or.inr ⟨ds, r, hr.2⟩

/-- `strContains hay needle`: Python `needle in hay`. -/
def strContains (hay needle : String) : Bool :=
  containsSubChars needle.data hay.data

/-- `CreateZIP.files_to_keep`. -/
def files_to_keep : List String :=
  ["CopyNumberVariants.vcf", "CombinedVariantOutput.tsv",
   "MergedSmallVariants.genome.vcf"]

/-- `any(filename in file for filename in self.files_to_keep)`. -/
def keptInUpload (file : String) : Bool :=
  files_to_keep.any (fun filename => strContains file filename)

/-- `CreateXML.xml_name`: `f"{self.sample_name}.xml"`. -/
def xml_name (sample_name : String) : String :=
  sample_name ++ ".xml"

/-- `CreateZIP.write_output_zip`, as the list of archive entry names
(`arcname`s) written to the output zip: the extracted files of the sample
folder (`os.listdir` base names, in order) that match the keep-set, each
stored under its own base name, followed by the manifest stored under
`{sample_name}.xml`. -/
def write_output_zip (to_zip : List String) (sample_name : String) :
    List String :=
  to_zip.filter keptInUpload ++ [xml_name sample_name]

/-- C3: the output archive holds exactly the extracted files whose name
contains one of the three keep-set substrings (under their own base
names) plus the manifest `{sample_name}.xml`; on the spec's concrete
example the archive is exactly the three variant files plus `A.xml`,
excluding the readme. -/
theorem write_output_zip_exact :
    (∀ (to_zip : List String) (sample_name file : String),
      file ∈ write_output_zip to_zip sample_name ↔
        ((file ∈ to_zip ∧ ∃ k ∈ files_to_keep,
          ∃ l r, file.data = l ++ k.data ++ r) ∨
         file = xml_name sample_name)) ∧
    write_output_zip
      ["A_CombinedVariantOutput.tsv", "A_CopyNumberVariants.vcf",
       "A_MergedSmallVariants.genome.vcf", "A_readme.txt"] "A" =
      ["A_CombinedVariantOutput.tsv", "A_CopyNumberVariants.vcf",
       "A_MergedSmallVariants.genome.vcf", "A.xml"] := by
  constructor
  · intro to_zip sample_name file
    simp only [write_output_zip, List.mem_append, List.mem_filter,
      List.mem_singleton, keptInUpload, List.any_eq_true, strContains,
      containsSubChars_iff]
  · rfl

/-! ## JSON values and `toolbox.check_returncode` (claims C4, C8, C9) -/

/-- A JSON scalar value, with Python truthiness. -/
inductive JVal where
  | null
  | jbool (b : Bool)
  | jnum (n : Int)
  | jstr (s : String)
deriving DecidableEq

/-- Python truthiness of a JSON value (`if out.get("error")`). -/
def JVal.truthy : JVal → Bool
  | .null => false
  | .jbool b => b
  | .jnum n => n != 0
  | .jstr s => s != ""

/-- A parsed JSON object (`json.loads` of the last stdout line). -/
abbrev JObj := List (String × JVal)

/-- `out.get(key)`: the value, or `None` when the field is absent. -/
def jget (o : JObj) (k : String) : Option JVal := o.lookup k

/-- Truthiness of `out.get(key)` (absent ⇒ falsy). -/
def truthyOpt : Option JVal → Bool
  | none => false
  | some v => v.truthy

/-- Messages `check_returncode` writes to the log. -/
inductive LogMsg where
  | resultsUrl (v : JVal)
  | success (rc : Int)
  | cmdError (v : JVal)
  | failedRc (rc : Int)
deriving DecidableEq

/-- Control outcome of `check_returncode`: normal return of the parsed
object, `sys.exit(1)`, or an uncaught exception (`json.loads` failing on
a non-JSON last line, modelled as `lastLine = none`). -/
inductive CRet where
  | ret (out : JObj)
  | exit (code : Nat)
  | exc
deriving DecidableEq

/-- `toolbox.check_returncode`, given the process return code and the
parse of the last stdout line (`none` when it is not a JSON object). -/
def check_returncode (rc : Int) (lastLine : Option JObj) :
    CRet × List LogMsg :=
  if rc = 0 then
    match lastLine with
    | none => (.exc, [])
    | some out =>
      let urlLog : List LogMsg :=
        if truthyOpt (jget out "results-url") then
          [.resultsUrl ((jget out "results-url").getD .null)]
        else []
      if truthyOpt (jget out "error") then
        (.exit 1, urlLog ++ [.cmdError ((jget out "error").getD .null)])
      else
        (.ret out, urlLog ++ [.success rc])
  else
    (.exit 1, [.failedRc rc])

theorem check_returncode_exit_one (rc : Int) (ll : Option JObj) (c : Nat)
    (h : (check_returncode rc ll).1 = .exit c) : c = 1 := by
  unfold check_returncode at h
  by_cases h0 : rc = 0
  · rw [if_pos h0] at h
    cases ll with
    | none => simp at h
    | some out =>
      by_cases he : truthyOpt (jget out "error")
      · simp only [he, if_true] at h
        simp at h
        exact h.symm
      · simp only [he] at h
        simp at h
  · rw [if_neg h0] at h
    simp at h
    exact h.symm

theorem check_returncode_ret (rc : Int) (ll : Option JObj) (out : JObj)
    (h : (check_returncode rc ll).1 = .ret out) :
    rc = 0 ∧ ll = some out ∧ truthyOpt (jget out "error") = false := by
  unfold check_returncode at h
  by_cases h0 : rc = 0
  · rw [if_pos h0] at h
    cases ll with
    | none => simp at h
    | some o =>
      by_cases he : truthyOpt (jget o "error")
      · simp only [he, if_true] at h
        simp at h
      · simp only [he] at h
        simp at h
        exact ⟨h0, by rw [h], by rw [← h]; simp [he]⟩
  · rw [if_neg h0] at h
    simp at h

theorem check_returncode_error_exit (out : JObj)
    (h : truthyOpt (jget out "error") = true) :
    (check_returncode 0 (some out)).1 = .exit 1 := by
  simp [check_returncode, h]

/-! ## Claim C4: error responses are fatal in the upload flow -/

/-- Inputs of one `UploadToQiagen` run: return code and parsed last
stdout line of the token-exchange command and of the upload command. -/
structure FlowInput where
  tokenRc : Int
  tokenLastLine : Option JObj
  uploadRc : Int
  uploadLastLine : Option JObj

/-- Result of one `UploadToQiagen` run: the exit code (`none` = normal
completion) and which curl commands were executed, in order. -/
structure FlowResult where
  exitCode : Option Nat
  commandsExecuted : List String
deriving DecidableEq

/-- `UploadToQiagen.__init__`: `generate_access_token` (one token-exchange
command through `execute_subprocess_command`/`check_returncode`, then
`out["access_token"]`, whose `KeyError` is caught and turned into
`sys.exit(1)`), then `upload_sample` (one upload command). `sys.exit`
raised inside `check_returncode` is not caught by the
`except Exception` handlers. -/
def uploadToQiagen (inp : FlowInput) : FlowResult :=
  match (check_returncode inp.tokenRc inp.tokenLastLine).1 with
  | .exit c => { exitCode := some c, commandsExecuted := ["token"] }
  | .exc => { exitCode := some 1, commandsExecuted := ["token"] }
  | .ret out =>
    match jget out "access_token" with
    | none => { exitCode := some 1, commandsExecuted := ["token"] }
    | some _ =>
      match (check_returncode inp.uploadRc inp.uploadLastLine).1 with
      | .exit c => { exitCode := some c, commandsExecuted := ["token", "upload"] }
      | .exc => { exitCode := some 1, commandsExecuted := ["token", "upload"] }
      | .ret _ => { exitCode := none, commandsExecuted := ["token", "upload"] }

/-- C4 (amended). A JSON body whose `error` field holds a truthy value is
fatal at either step: at the token-exchange step the process exits with
code 1 having executed only the token command (no upload request is
issued — in particular for `{"error": "invalid_grant"}`); at the upload
step it exits with code 1; and no step is ever retried (each run executes
the token command once and the upload command at most once). A present
but falsy `error` value is treated as success
(see `check_returncode_falsy_error_cex`). -/
theorem upload_flow_error_fatal (inp : FlowInput) (out : JObj)
    (h1 : inp.tokenRc = 0) (h2 : inp.tokenLastLine = some out)
    (h3 : truthyOpt (jget out "error") = true) :
    uploadToQiagen inp = { exitCode := some 1, commandsExecuted := ["token"] } ∧
    (∀ (inp2 : FlowInput) (out2 : JObj), inp2.uploadRc = 0 →
      inp2.uploadLastLine = some out2 →
      truthyOpt (jget out2 "error") = true →
      (uploadToQiagen inp2).exitCode = some 1) ∧
    (∀ inp3 : FlowInput,
      (uploadToQiagen inp3).commandsExecuted = ["token"] ∨
      (uploadToQiagen inp3).commandsExecuted = ["token", "upload"]) := by
  refine ⟨?_, ?_, ?_⟩
  · have ht : (check_returncode inp.tokenRc inp.tokenLastLine).1 = .exit 1 := by
      rw [h1, h2]; exact check_returncode_error_exit out h3
    unfold uploadToQiagen
    rw [ht]
  · intro inp2 out2 h4 h5 h6
    have hu : (check_returncode inp2.uploadRc inp2.uploadLastLine).1 = .exit 1 := by
      rw [h4, h5]; exact check_returncode_error_exit out2 h6
    unfold uploadToQiagen
    cases hts : (check_returncode inp2.tokenRc inp2.tokenLastLine).1 with
    | exit c =>
      have := check_returncode_exit_one _ _ _ hts
      simp [this]
    | exc => simp
    | ret o =>
      cases hat : jget o "access_token" with
      | none => simp [hat]
      | some v => simp [hat, hu]
  · intro inp3
    unfold uploadToQiagen
    split
    · exact Or.inl rfl
    · exact Or.inl rfl
    · split
      · exact Or.inl rfl
      · split
        · exact Or.inr rfl
        · exact Or.inr rfl
        · exact Or.inr rfl

/-- C4 witness input: a token-endpoint body `{"error": "invalid_grant"}`. -/
def invalidGrantInput : FlowInput :=
  { tokenRc := 0, tokenLastLine := some [("error", JVal.jstr "invalid_grant")],
    uploadRc := 0, uploadLastLine := none }

theorem upload_flow_error_fatal_witness :
    uploadToQiagen invalidGrantInput =
      { exitCode := some 1, commandsExecuted := ["token"] } ∧
    (∀ (inp2 : FlowInput) (out2 : JObj), inp2.uploadRc = 0 →
      inp2.uploadLastLine = some out2 →
      truthyOpt (jget out2 "error") = true →
      (uploadToQiagen inp2).exitCode = some 1) ∧
    (∀ inp3 : FlowInput,
      (uploadToQiagen inp3).commandsExecuted = ["token"] ∨
      (uploadToQiagen inp3).commandsExecuted = ["token", "upload"]) :=
  upload_flow_error_fatal invalidGrantInput
    [("error", JVal.jstr "invalid_grant")] rfl rfl (by rfl)

/-- C4 counterexample: the claim says a body *containing an `error`
field* is fatal, but `check_returncode` tests Python truthiness of the
value: with return code 0 and body `{"error": ""}` the command is
treated as successful — the function returns the object and logs
success instead of exiting. -/
theorem check_returncode_falsy_error_cex :
    check_returncode 0 (some [("error", JVal.jstr "")]) =
      (.ret [("error", JVal.jstr "")], [LogMsg.success 0]) := by rfl

/-! ## Claim C8: device-code failures write no output files -/

/-- The three output files of `GetUserCode`. -/
inductive CodeFile where
  | verifier
  | userCode
  | deviceCode
deriving DecidableEq

/-- Inputs of one `GetUserCode` run: return code and parsed last stdout
line of the device-code command. -/
structure GUCInput where
  devRc : Int
  devLastLine : Option JObj

/-- Result of a `GetUserCode` run. -/
structure GUCResult where
  exitCode : Option Nat
  filesWritten : List CodeFile
deriving DecidableEq

/-- `GetUserCode.__init__`: `generate_pkce_pair`, then
`generate_device_code` (the device-code command through
`execute_subprocess_command`/`check_returncode`, then `out["userCode"]`
and `out["deviceCode"]`, whose `KeyError` the handler turns into
`sys.exit(1)`), and only afterwards the three `write_code_to_file`
calls. -/
def getUserCode (inp : GUCInput) : GUCResult :=
  match (check_returncode inp.devRc inp.devLastLine).1 with
  | .exit c => { exitCode := some c, filesWritten := [] }
  | .exc => { exitCode := some 1, filesWritten := [] }
  | .ret out =>
    match jget out "userCode", jget out "deviceCode" with
    | some _, some _ =>
      { exitCode := none,
        filesWritten := [.verifier, .userCode, .deviceCode] }
    | _, _ => { exitCode := some 1, filesWritten := [] }

/-- C8: whenever the device-code request fails — the command returns a
non-zero code, its last output line is not a JSON object, the body
carries an error, or the `userCode`/`deviceCode` fields are missing —
the run exits with status 1 and none of the three output files
(code verifier, user code, device code) has been written. -/
theorem get_user_code_failure_no_files (inp : GUCInput)
    (h : inp.devRc ≠ 0 ∨ inp.devLastLine = none ∨
      ∃ out, inp.devLastLine = some out ∧
        (truthyOpt (jget out "error") = true ∨
         jget out "userCode" = none ∨ jget out "deviceCode" = none)) :
    (getUserCode inp).exitCode = some 1 ∧
    (getUserCode inp).filesWritten = [] := by
  unfold getUserCode
  cases hc : (check_returncode inp.devRc inp.devLastLine).1 with
  | exit c =>
    have := check_returncode_exit_one _ _ _ hc
    simp [this]
  | exc => simp
  | ret out2 =>
    rcases check_returncode_ret _ _ _ hc with ⟨h0, hll, herr⟩
    rcases h with h | h | ⟨out, hout, h⟩
    · exact absurd h0 h
    · rw [h] at hll; exact absurd hll (by simp)
    · rw [hout] at hll
      have hoo : out = out2 := by
        simpa using hll
      rcases h with h | h | h
      · rw [hoo] at h
        rw [h] at herr
        exact absurd herr (by simp)
      · rw [hoo] at h
        simp [h]
      · rw [hoo] at h
        cases hu : jget out2 "userCode" with
        | none => simp [hu]
        | some v => simp [hu, h]

/-- C8 witness input: device-code command whose body lacks `userCode`. -/
def gucFailInput : GUCInput :=
  { devRc := 0, devLastLine := some [("deviceCode", JVal.jstr "D")] }

theorem get_user_code_failure_no_files_witness :
    (getUserCode gucFailInput).exitCode = some 1 ∧
    (getUserCode gucFailInput).filesWritten = [] :=
  get_user_code_failure_no_files gucFailInput
    (Or.inr (Or.inr ⟨[("deviceCode", JVal.jstr "D")], rfl,
      Or.inr (Or.inl rfl)⟩))

/-! ## Claim C9: results-url surfacing and success path -/

/-- C9 (amended). For a successful (return code 0) command whose parsed
JSON holds a *truthy* `results-url` value, that URL is written to the
log; and a successful response containing neither an `error` field nor a
`results-url` field is treated as success: the function returns the
object normally, logging only the success message. A present but falsy
`results-url` value is not surfaced
(see `check_returncode_results_url_cex`). -/
theorem check_returncode_success_logging (rc : Int) (out : JObj)
    (h0 : rc = 0) :
    (truthyOpt (jget out "results-url") = true →
      LogMsg.resultsUrl ((jget out "results-url").getD .null) ∈
        (check_returncode rc (some out)).2) ∧
    (jget out "error" = none → jget out "results-url" = none →
      check_returncode rc (some out) = (.ret out, [.success 0])) := by
  subst h0
  constructor
  · intro hurl
    by_cases he : truthyOpt (jget out "error")
    · simp [check_returncode, hurl, he]
    · simp [check_returncode, hurl, he]
  · intro he hu
    simp [check_returncode, he, hu, truthyOpt]

theorem check_returncode_success_logging_witness :
    (truthyOpt (jget [("results-url", JVal.jstr "http://x")] "results-url")
        = true →
      LogMsg.resultsUrl
          ((jget [("results-url", JVal.jstr "http://x")] "results-url").getD
            .null) ∈
        (check_returncode 0 (some [("results-url", JVal.jstr "http://x")])).2) ∧
    (jget [("results-url", JVal.jstr "http://x")] "error" = none →
      jget [("results-url", JVal.jstr "http://x")] "results-url" = none →
      check_returncode 0 (some [("results-url", JVal.jstr "http://x")]) =
        (.ret [("results-url", JVal.jstr "http://x")], [.success 0])) :=
  check_returncode_success_logging 0 [("results-url", JVal.jstr "http://x")] rfl

/-- C9 counterexample: the claim says a successful response *containing a
`results-url` field* has the URL logged, but the code tests truthiness:
with body `{"results-url": ""}` the field is present yet nothing is
logged besides the success message. -/
theorem check_returncode_results_url_cex :
    (check_returncode 0 (some [("results-url", JVal.jstr "")])).2 =
      [LogMsg.success 0] := by rfl

/-! ## Claim C2: the upload entrypoint cannot reach its success path -/

/-- Top-level names defined by module `qiagen_upload.qiagen_upload`. -/
def qiagen_upload_module_defs : List String :=
  ["CreateZIP", "CreateXML", "UploadToQiagen"]

/-- Python attribute resolution `module.name` (raises `AttributeError`
when the name is not defined in the module). -/
def resolveAttr (defs : List String) (n : String) : Bool :=
  defs.contains n

/-- The Python types in play at the entrypoint's calls. -/
inductive PyType where
  | pstr
  | plogger
deriving DecidableEq

/-- The annotated parameters of `UploadToQiagen.__init__` (after `self`):
`client_id: str, client_secret: str, code_verifier: str,
device_code: str, filepath_to_upload: str, logger: logging.Logger`. -/
def UploadToQiagen_params : List (String × PyType) :=
  [("client_id", .pstr), ("client_secret", .pstr), ("code_verifier", .pstr),
   ("device_code", .pstr), ("filepath_to_upload", .pstr),
   ("logger", .plogger)]

/-- The positional argument types in the entrypoint's call
`UploadToQiagen(client_id, client_secret, code_verifier, device_code,
create_zip.output_zip, sample_name)` — the last argument is the sample
name, a `str`. -/
def entrypoint_upload_args : List PyType :=
  [.pstr, .pstr, .pstr, .pstr, .pstr, .pstr]

/-- Whether an argument list matches an annotated signature: same arity
and each positional argument of the annotated type. -/
def argsMatch (params : List (String × PyType)) (args : List PyType) : Bool :=
  params.length == args.length &&
    (List.zip params args).all (fun p => p.1.2 == p.2)

/-- Outcome of running the entrypoint module body. -/
inductive MainOutcome where
  | attrError (missing : String)
  | completed
deriving DecidableEq

/-- Observable effects of an entrypoint run. -/
structure MainResult where
  outcome : MainOutcome
  archiveWritten : Bool
  httpIssued : Bool
deriving DecidableEq

/-- The module body of `qiagen_upload/__main__.py` after argument
parsing: line 85 evaluates `qiagen_upload.AddXMLtoZIP(...)` — the
attribute lookup happens before any zip is produced; only if it resolved
would the archive be written and `UploadToQiagen` issue HTTP requests. -/
def upload_entrypoint_main : MainResult :=
  if resolveAttr qiagen_upload_module_defs "AddXMLtoZIP" then
    { outcome := .completed, archiveWritten := true, httpIssued := true }
  else
    { outcome := .attrError "AddXMLtoZIP", archiveWritten := false,
      httpIssued := false }

/-- C2: the upload entrypoint fails before any output archive is created
and before any HTTP request is issued: `AddXMLtoZIP` is not among the
names defined by the `qiagen_upload` module (the class is `CreateZIP`),
so the run ends in an `AttributeError`; moreover the entrypoint's
`UploadToQiagen` argument list does not match the constructor's
annotated signature (a `str` sample name is passed in the `logger`
position). The success path is unreachable. -/
theorem entrypoint_unreachable_success :
    resolveAttr qiagen_upload_module_defs "AddXMLtoZIP" = false ∧
    upload_entrypoint_main =
      { outcome := .attrError "AddXMLtoZIP", archiveWritten := false,
        httpIssued := false } ∧
    argsMatch UploadToQiagen_params entrypoint_upload_args = false := by
  exact ⟨rfl, rfl, rfl⟩

/-! ## Claim C10: `SensitiveFormatter._filter` secret masking

Each of the six `re.sub` patterns has the shape
`pre [^ ]+ suf` with literal `pre`/`suf` and replacement `pre
<MASKED_KEY> suf`. `maskSub` implements one such pass with Python regex
semantics: leftmost scan, greedy `[^ ]+` with backtracking to the last
position where `suf` matches, non-overlapping continuation after each
replacement. -/

/-- `<MASKED_KEY>`, the replacement text. -/
def maskStr : List Char := "<MASKED_KEY>".data

/-- Length of the maximal leading run of non-space characters — how far
`[^ ]+` can reach from the current position. -/
def maxRun : List Char → Nat
  | [] => 0
  | c :: cs => if c = ' ' then 0 else maxRun cs + 1

/-- Greedy backtracking: the largest `k ∈ [1, n]` such that `suf`
matches right after the first `k` characters of `l`. -/
def findKAux (l suf : List Char) : Nat → Option Nat
  | 0 => none
  | n + 1 =>
    if suf.isPrefixOf (l.drop (n + 1)) then some (n + 1)
    else findKAux l suf n

def findK (l suf : List Char) : Option Nat := findKAux l suf (maxRun l)

/-- One `re.sub(pre + "[^ ]+" + suf, pre + "<MASKED_KEY>" + suf, ·)`
pass. `fuel` only forces termination and is set to the input length. -/
def maskGo (pre suf : List Char) : Nat → List Char → List Char
  | _, [] => []
  | 0, l => l
  | fuel + 1, c :: cs =>
    if pre.isPrefixOf (c :: cs) then
      match findK ((c :: cs).drop pre.length) suf with
      | some k =>
        pre ++ maskStr ++ suf ++
          maskGo pre suf fuel (((c :: cs).drop pre.length).drop (k + suf.length))
      | none => c :: maskGo pre suf fuel cs
    else c :: maskGo pre suf fuel cs

def maskSub (pre suf l : List Char) : List Char := maskGo pre suf l.length l

theorem maskGo_nil (pre suf : List Char) (f : Nat) :
    maskGo pre suf f [] = [] := by cases f <;> rfl

theorem maskGo_succ_pos (pre suf : List Char) (fuel : Nat) (c : Char)
    (cs : List Char) (k : Nat) (hp : pre.isPrefixOf (c :: cs) = true)
    (hk : findK ((c :: cs).drop pre.length) suf = some k) :
    maskGo pre suf (fuel + 1) (c :: cs) =
      pre ++ maskStr ++ suf ++
        maskGo pre suf fuel (((c :: cs).drop pre.length).drop (k + suf.length)) := by
  simp [maskGo, hp, hk]

theorem maskGo_succ_nok (pre suf : List Char) (fuel : Nat) (c : Char)
    (cs : List Char) (hp : pre.isPrefixOf (c :: cs) = true)
    (hk : findK ((c :: cs).drop pre.length) suf = none) :
    maskGo pre suf (fuel + 1) (c :: cs) = c :: maskGo pre suf fuel cs := by
  simp [maskGo, hp, hk]

theorem maskGo_succ_neg (pre suf : List Char) (fuel : Nat) (c : Char)
    (cs : List Char) (hp : pre.isPrefixOf (c :: cs) = false) :
    maskGo pre suf (fuel + 1) (c :: cs) = c :: maskGo pre suf fuel cs := by
  simp [maskGo, hp]

theorem findKAux_bounds (l suf : List Char) :
    ∀ (n k : Nat), findKAux l suf n = some k →
      1 ≤ k ∧ k ≤ n ∧ suf.isPrefixOf (l.drop k) = true := by
  intro n
  induction n with
  | zero => intro k h; simp [findKAux] at h
  | succ m ih =>
    intro k h
    by_cases hp : suf.isPrefixOf (l.drop (m + 1)) = true
    · simp only [findKAux, hp, if_true, Option.some.injEq] at h
      refine ⟨by omega, by omega, ?_⟩
      rw [← h]
      exact hp
    · have hp' : suf.isPrefixOf (l.drop (m + 1)) = false := by
        cases hx : suf.isPrefixOf (l.drop (m + 1))
        · rfl
        · exact absurd hx hp
      simp only [findKAux, hp', Bool.false_eq_true, if_false] at h
      rcases ih k h with ⟨h1, h2, h3⟩
      exact ⟨h1, by omega, h3⟩

theorem findK_pos (l suf : List Char) (k : Nat) (h : findK l suf = some k) :
    1 ≤ k :=
  (findKAux_bounds l suf (maxRun l) k h).1

theorem findKAux_eq_some (l suf : List Char) :
    ∀ (n k : Nat), 1 ≤ k → k ≤ n →
      suf.isPrefixOf (l.drop k) = true →
      (∀ j, k < j → j ≤ n → suf.isPrefixOf (l.drop j) = false) →
      findKAux l suf n = some k := by
  intro n
  induction n with
  | zero => intro k h1 h2 _ _; omega
  | succ m ih =>
    intro k h1 h2 h3 h4
    by_cases hk : k = m + 1
    · subst hk
      simp [findKAux, h3]
    · have hklt : k ≤ m := by omega
      have hp : suf.isPrefixOf (l.drop (m + 1)) = false :=
        h4 (m + 1) (by omega) (by omega)
      simp only [findKAux, hp, Bool.false_eq_true, if_false]
      exact ih k h1 hklt h3 (fun j hj1 hj2 => h4 j hj1 (by omega))

theorem findK_eq (l suf : List Char) (k m : Nat) (hm : maxRun l = m)
    (h1 : 1 ≤ k) (h2 : k ≤ m) (h3 : suf.isPrefixOf (l.drop k) = true)
    (h4 : ∀ j, k < j → j ≤ m → suf.isPrefixOf (l.drop j) = false) :
    findK l suf = some k := by
  rw [findK, hm]
  exact findKAux_eq_some l suf m k h1 h2 h3 h4

theorem maxRun_cons_space (t : List Char) : maxRun (' ' :: t) = 0 := by
  simp [maxRun]

theorem maxRun_cons_ne (c : Char) (t : List Char) (h : c ≠ ' ') :
    maxRun (c :: t) = maxRun t + 1 := by
  simp [maxRun, h]

theorem maxRun_append (s t : List Char) (hs : ∀ c ∈ s, c ≠ ' ') :
    maxRun (s ++ t) = s.length + maxRun t := by
  induction s with
  | nil => simp
  | cons c cs ih =>
    have hc : c ≠ ' ' := hs c (List.mem_cons_self c cs)
    rw [List.cons_append, maxRun_cons_ne c _ hc,
      ih (fun x hx => hs x (List.mem_cons_of_mem c hx)), List.length_cons]
    omega

theorem isPrefixOf_iff_get :
    ∀ (p l : List Char), p.isPrefixOf l = true ↔
      ∀ j, j < p.length → l[j]? = p[j]? := by
  intro p
  induction p with
  | nil => intro l; simp [List.isPrefixOf]
  | cons a as ih =>
    intro l
    cases l with
    | nil =>
      simp only [List.isPrefixOf]
      constructor
      · intro h; exact absurd h (by simp)
      · intro h
        have := h 0 (by simp)
        simp at this
    | cons b bs =>
      simp only [List.isPrefixOf, Bool.and_eq_true, beq_iff_eq, ih bs]
      constructor
      · rintro ⟨hab, h⟩ j hj
        cases j with
        | zero => simp [hab]
        | succ j' =>
          simp only [List.length_cons, Nat.succ_lt_succ_iff] at hj
          simpa using h j' hj
      · intro h
        refine ⟨?_, ?_⟩
        · have h0 := h 0 (by simp)
          simp at h0
          exact h0.symm
        · intro j hj
          have := h (j + 1) (by simp [Nat.succ_lt_succ_iff]; omega)
          simpa using this

theorem isPrefixOf_append_self :
    ∀ (p t : List Char), p.isPrefixOf (p ++ t) = true := by
  intro p t
  induction p with
  | nil => simp [List.isPrefixOf]
  | cons a as ih => simp [List.isPrefixOf, ih]

theorem isPrefixOf_append_of_le :
    ∀ (p u v : List Char), p.length ≤ u.length →
      p.isPrefixOf (u ++ v) = p.isPrefixOf u := by
  intro p
  induction p with
  | nil => intro u v _; simp [List.isPrefixOf]
  | cons a as ih =>
    intro u v h
    cases u with
    | nil => simp at h
    | cons b bs =>
      simp only [List.cons_append, List.isPrefixOf, List.append_eq]
      rw [ih bs v (by simpa using h)]

theorem getElem?_ne_of_all (v : List Char) (x : Char)
    (hv : ∀ c ∈ v, c ≠ x) (t : Nat) : v[t]? ≠ some x := by
  cases hx : v[t]? with
  | none => simp
  | some c =>
    intro hc
    have hcv : c ∈ v := List.getElem?_mem hx
    have hcx : c = x := by injection hc
    exact hv c hcv hcx

theorem not_prefixOf_of_get_ne (suf l : List Char) (j : Nat) (x : Char)
    (hsuf : suf[0]? = some x) (h : l[j]? ≠ some x) :
    suf.isPrefixOf (l.drop j) = false := by
  cases hx : suf.isPrefixOf (l.drop j)
  · rfl
  · exfalso
    have h0 : 0 < suf.length := by
      cases suf
      · simp at hsuf
      · simp
    have hj := (isPrefixOf_iff_get suf (l.drop j)).mp hx 0 h0
    rw [List.getElem?_drop, hsuf] at hj
    exact h (by simpa using hj)

/-- Occurrence analysis over `concrete ++ secret ++ rest`: an occurrence
of `pre` starting before the end of the secret region must either lie
inside the concrete part, end inside the secret (impossible: `pre`'s
last character is excluded from the secret alphabet), or push a proper
suffix of `pre` into the continuation (excluded by `h2`). -/
theorem no_occurrence_concat (pre cA s cB : List Char) (lc : Char)
    (hlen : 1 ≤ pre.length)
    (hlast : pre[pre.length - 1]? = some lc)
    (hs : ∀ c ∈ s, c ≠ lc)
    (h1 : ∀ i, i < cA.length → pre.isPrefixOf (cA.drop i) = false)
    (h2 : ∀ j, 0 < j → j < pre.length → (pre.drop j).isPrefixOf cB = false) :
    ∀ i, i < cA.length + s.length →
      pre.isPrefixOf ((cA ++ (s ++ cB)).drop i) = false := by
  intro i hi
  cases hx : pre.isPrefixOf ((cA ++ (s ++ cB)).drop i) with
  | false => rfl
  | true =>
    exfalso
    have hget : ∀ j, j < pre.length → (cA ++ (s ++ cB))[i + j]? = pre[j]? := by
      intro j hj
      have := (isPrefixOf_iff_get pre ((cA ++ (s ++ cB)).drop i)).mp hx j hj
      rwa [List.getElem?_drop] at this
    by_cases hcase1 : i + pre.length ≤ cA.length
    · have hic : i < cA.length := by omega
      have hfalse := h1 i hic
      have htrue : pre.isPrefixOf (cA.drop i) = true := by
        rw [isPrefixOf_iff_get]
        intro j hj
        rw [List.getElem?_drop]
        have hj2 : i + j < cA.length := by omega
        have hg := hget j hj
        rwa [List.getElem?_append_left hj2] at hg
      rw [hfalse] at htrue
      exact absurd htrue (by simp)
    · by_cases hcase2 : i + pre.length ≤ cA.length + s.length
      · have hj : pre.length - 1 < pre.length := by omega
        have hg := hget (pre.length - 1) hj
        rw [hlast] at hg
        have hidx1 : cA.length ≤ i + (pre.length - 1) := by omega
        rw [List.getElem?_append_right hidx1] at hg
        have hidx2 : i + (pre.length - 1) - cA.length < s.length := by omega
        rw [List.getElem?_append_left hidx2] at hg
        have hmem : lc ∈ s := List.getElem?_mem hg
        exact hs lc hmem rfl
      · have hj0pos : 0 < cA.length + s.length - i := by omega
        have hj0lt : cA.length + s.length - i < pre.length := by omega
        have hfalse := h2 (cA.length + s.length - i) hj0pos hj0lt
        have htrue : (pre.drop (cA.length + s.length - i)).isPrefixOf cB
            = true := by
          rw [isPrefixOf_iff_get]
          intro j' hj'
          rw [List.getElem?_drop]
          have hlendrop : (pre.drop (cA.length + s.length - i)).length =
              pre.length - (cA.length + s.length - i) :=
            List.length_drop _ _
          have hjj : (cA.length + s.length - i) + j' < pre.length := by
            omega
          have hg := hget ((cA.length + s.length - i) + j') hjj
          have hidx : cA.length ≤ i + ((cA.length + s.length - i) + j') := by
            omega
          rw [List.getElem?_append_right hidx] at hg
          have hidx2 : s.length ≤
              i + ((cA.length + s.length - i) + j') - cA.length := by omega
          rw [List.getElem?_append_right hidx2] at hg
          have heq : i + ((cA.length + s.length - i) + j') - cA.length
              - s.length = j' := by omega
          rwa [heq] at hg
        rw [hfalse] at htrue
        exact absurd htrue (by simp)

theorem maskGo_eq_maskSub (pre suf : List Char) :
    ∀ (f : Nat) (l : List Char), l.length ≤ f →
      maskGo pre suf f l = maskSub pre suf l := by
  intro f
  induction f using Nat.strong_induction_on with
  | _ f ih =>
    intro l hl
    cases l with
    | nil => rw [maskGo_nil]; rfl
    | cons c cs =>
      cases f with
      | zero => simp at hl
      | succ g =>
        have hcs : cs.length ≤ g := by
          simp only [List.length_cons] at hl
          omega
        show maskGo pre suf (g + 1) (c :: cs) =
          maskGo pre suf (cs.length + 1) (c :: cs)
        by_cases hp : pre.isPrefixOf (c :: cs) = true
        · cases hk : findK ((c :: cs).drop pre.length) suf with
          | none =>
            rw [maskGo_succ_nok pre suf g c cs hp hk,
              maskGo_succ_nok pre suf cs.length c cs hp hk,
              ih g (by omega) cs hcs]
            rfl
          | some k =>
            have hkpos : 1 ≤ k := findK_pos _ _ _ hk
            have hlen : (((c :: cs).drop pre.length).drop
                (k + suf.length)).length ≤ cs.length := by
              rw [List.length_drop, List.length_drop, List.length_cons]
              omega
            rw [maskGo_succ_pos pre suf g c cs k hp hk,
              maskGo_succ_pos pre suf cs.length c cs k hp hk,
              ih g (by omega) _ (by omega),
              ih cs.length (by omega) _ (by omega)]
        · have hp' : pre.isPrefixOf (c :: cs) = false := by
            cases hx : pre.isPrefixOf (c :: cs)
            · rfl
            · exact absurd hx hp
          rw [maskGo_succ_neg pre suf g c cs hp',
            maskGo_succ_neg pre suf cs.length c cs hp',
            ih g (by omega) cs hcs]
          rfl

theorem maskSub_nil (pre suf : List Char) : maskSub pre suf [] = [] := rfl

theorem maskSub_cons_neg (pre suf : List Char) (c : Char) (cs : List Char)
    (hp : pre.isPrefixOf (c :: cs) = false) :
    maskSub pre suf (c :: cs) = c :: maskSub pre suf cs := by
  show maskGo pre suf (cs.length + 1) (c :: cs) = _
  rw [maskGo_succ_neg pre suf cs.length c cs hp]
  rfl

theorem maskSub_match (pre suf rest : List Char) (k : Nat)
    (hpre : pre ≠ []) (hk : findK rest suf = some k) :
    maskSub pre suf (pre ++ rest) =
      pre ++ maskStr ++ suf ++ maskSub pre suf (rest.drop (k + suf.length)) := by
  obtain ⟨p, ps, hpps⟩ : ∃ p ps, pre = p :: ps := by
    cases pre with
    | nil => exact absurd rfl hpre
    | cons p ps => exact ⟨p, ps, rfl⟩
  subst hpps
  have hcons : (p :: ps) ++ rest = p :: (ps ++ rest) := rfl
  have hp : (p :: ps).isPrefixOf (p :: (ps ++ rest)) = true := by
    rw [← hcons]; exact isPrefixOf_append_self _ _
  have hdrop : (p :: (ps ++ rest)).drop (p :: ps).length = rest := by
    rw [← hcons]; exact List.drop_left _ _
  have hkpos : 1 ≤ k := findK_pos _ _ _ hk
  have hk' : findK ((p :: (ps ++ rest)).drop (p :: ps).length) suf = some k := by
    rw [hdrop]; exact hk
  show maskGo (p :: ps) suf ((p :: (ps ++ rest)).length) (p :: (ps ++ rest)) = _
  have hlenc : (p :: (ps ++ rest)).length = (ps ++ rest).length + 1 := rfl
  rw [hlenc, maskGo_succ_pos (p :: ps) suf (ps ++ rest).length p
    (ps ++ rest) k hp hk', hdrop]
  rw [maskGo_eq_maskSub (p :: ps) suf (ps ++ rest).length
    (rest.drop (k + suf.length))
    (by rw [List.length_drop, List.length_append]; omega)]

theorem maskSub_skip (pre suf : List Char) :
    ∀ (a rest : List Char),
      (∀ i, i < a.length → pre.isPrefixOf ((a ++ rest).drop i) = false) →
      maskSub pre suf (a ++ rest) = a ++ maskSub pre suf rest := by
  intro a
  induction a with
  | nil => intro rest _; rfl
  | cons c a' ih =>
    intro rest h
    have h0 : pre.isPrefixOf (c :: (a' ++ rest)) = false := by
      have := h 0 (by simp)
      simpa using this
    have hsh : ∀ i, i < a'.length →
        pre.isPrefixOf ((a' ++ rest).drop i) = false := by
      intro i hi
      have := h (i + 1) (by simp; omega)
      simpa [List.drop_succ_cons] using this
    rw [List.cons_append, maskSub_cons_neg pre suf c (a' ++ rest) h0,
      ih rest hsh]
    rfl

theorem maskSub_skip_front (pre suf a t rest : List Char)
    (hlen : pre.length ≤ t.length)
    (hd : ∀ i, i < a.length → pre.isPrefixOf ((a ++ t).drop i) = false) :
    maskSub pre suf (a ++ (t ++ rest)) = a ++ maskSub pre suf (t ++ rest) := by
  apply maskSub_skip
  intro i hi
  have heq : (a ++ (t ++ rest)).drop i = ((a ++ t).drop i) ++ rest := by
    rw [← List.append_assoc]
    exact List.drop_append_of_le_length (by rw [List.length_append]; omega)
  rw [heq, isPrefixOf_append_of_le pre ((a ++ t).drop i) rest
    (by rw [List.length_drop, List.length_append]; omega)]
  exact hd i hi

theorem getElem?_append_right_ne (u v : List Char) (x : Char)
    (hv : ∀ c ∈ v, c ≠ x) (j : Nat) (hj : u.length ≤ j) :
    (u ++ v)[j]? ≠ some x := by
  rw [List.getElem?_append_right hj]
  exact getElem?_ne_of_all v x hv _

/-- Single-quote character (39). -/
def squote : Char := Char.ofNat 39

/-- Double-quote character (34). -/
def dquote : Char := Char.ofNat 34

/-- `r"Basic [^ ]+ "`. -/
def rePre1 : List Char := "Basic ".data
def reSuf1 : List Char := " ".data

/-- `r"device_code=[^ ]+&"`. -/
def rePre2 : List Char := "device_code=".data
def reSuf2 : List Char := "&".data

/-- `r"code_verifier=[^ ]+' "`. -/
def rePre3 : List Char := "code_verifier=".data
def reSuf3 : List Char := "\x27 ".data

/-- `r'Authorization: [^ ]+" '`. -/
def rePre4 : List Char := "Authorization: ".data
def reSuf4 : List Char := "\x22 ".data

/-- `r'"client_id": [^ ]+, '`. -/
def rePre5 : List Char := "\x22client_id\x22: ".data
def reSuf5 : List Char := ", ".data

/-- `r'"code_challenge": [^ ]+, '`. -/
def rePre6 : List Char := "\x22code_challenge\x22: ".data
def reSuf6 : List Char := ", ".data

/-- `SensitiveFormatter._filter`: the six `re.sub` passes in source
order. -/
def sensitiveFilterChars (m : List Char) : List Char :=
  maskSub rePre6 reSuf6 (maskSub rePre5 reSuf5 (maskSub rePre4 reSuf4
    (maskSub rePre3 reSuf3 (maskSub rePre2 reSuf2
      (maskSub rePre1 reSuf1 m)))))

def SensitiveFormatter_filter (m : String) : String :=
  ⟨sensitiveFilterChars m.data⟩

/-- `toolbox.execute_subprocess_command` logs
`f"Executing command: {command}"`; that line goes through the
formatter's filter. -/
def execLogLine (cmd : String) : String := "Executing command: " ++ cmd

/-- `UploadToQiagen.generate_access_token`'s `access_token_cmd`. -/
def access_token_cmd (encoded_clientid device_code code_verifier : String) :
    String :=
  "curl -i -X POST -H \x22Authorization: Basic " ++ encoded_clientid ++
    "\x22 -d \x27grant_type=urn:ietf:params:oauth:grant-type:device_code&device_code=" ++
    device_code ++ "&code_verifier=" ++ code_verifier ++
    "\x27 \x27https://apps.qiagenbioinformatics.eu/qiaoauth/oauth/token\x27"

/-- `GetUserCode.get_device_code_cmd`'s command. -/
def get_device_code_cmd (client_id code_challenge : String) : String :=
  "curl -i -X POST -H \x27Content-Type: application/json\x27 -d \x27\x7b\x22client_id\x22: \x22" ++
    client_id ++ "\x22, \x22code_challenge\x22: \x22" ++ code_challenge ++
    "\x22, \x22code_challenge_method\x22: \x22S256\x22\x7d\x27 \x27https://apps.qiagenbioinformatics.eu/qiaoauth/oauth/device/code\x27"

/-- `UploadToQiagen.upload_sample`'s `sample_upload_cmd`. -/
def sample_upload_cmd (access_token filepath_to_upload : String) : String :=
  "curl -X POST -H \x22Authorization: " ++ access_token ++
    "\x22 -H \x22accept: application/json\x22 -H \x22Content-Type: multipart/form-data\x22 -F \x22file=@" ++
    filepath_to_upload ++
    ";type=application/zip\x22 \x22https://api.qiagenbioinformatics.eu/v2/sample\x22"

/-- Characters admissible in a secret value for the masking theorem: no
space (the `[^ ]+` delimiter), no ampersand, quote, double quote, or
equals sign (the pattern delimiters). Device codes, PKCE verifiers,
challenges, client ids and bearer tokens are URL-safe strings satisfying
this. -/
def SecretChar (c : Char) : Prop :=
  c ≠ ' ' ∧ c ≠ '&' ∧ c ≠ squote ∧ c ≠ dquote ∧ c ≠ '='

instance (c : Char) : Decidable (SecretChar c) := by
  unfold SecretChar; infer_instance

def SecretStr (s : String) : Prop :=
  s.data ≠ [] ∧ ∀ c ∈ s.data, SecretChar c

/-- The base64 Basic credential may also contain `=` padding. -/
def BasicCredChar (c : Char) : Prop :=
  c ≠ ' ' ∧ c ≠ '&' ∧ c ≠ squote ∧ c ≠ dquote

instance (c : Char) : Decidable (BasicCredChar c) := by
  unfold BasicCredChar; infer_instance

def BasicCredStr (s : String) : Prop :=
  s.data ≠ [] ∧ ∀ c ∈ s.data, BasicCredChar c

/-- Skip a `concrete ++ secret` region during one masking pass. -/
theorem maskSub_skip_secret (pre suf cA s cB : List Char) (lc : Char)
    (hlen : 1 ≤ pre.length)
    (hlast : pre[pre.length - 1]? = some lc)
    (hs : ∀ c ∈ s, c ≠ lc)
    (h1 : ∀ i, i < cA.length → pre.isPrefixOf (cA.drop i) = false)
    (h2 : ∀ j, 0 < j → j < pre.length → (pre.drop j).isPrefixOf cB = false) :
    maskSub pre suf (cA ++ (s ++ cB)) = cA ++ (s ++ maskSub pre suf cB) := by
  have hocc := no_occurrence_concat pre cA s cB lc hlen hlast hs h1 h2
  have heq : cA ++ (s ++ cB) = (cA ++ s) ++ cB :=
    (List.append_assoc cA s cB).symm
  rw [heq, maskSub_skip pre suf (cA ++ s) cB ?hcond]
  · simp [List.append_assoc]
  case hcond =>
    intro i hi
    rw [← heq]
    exact hocc i (by rw [List.length_append] at hi; exact hi)

/-- Lift a decidable "no proper suffix of `pre` starts `u`" check through
an appended continuation. -/
theorem drop_isPrefixOf_append_false (pre u rest : List Char)
    (hu : pre.length - 1 ≤ u.length)
    (hd : ∀ j, 0 < j → j < pre.length → (pre.drop j).isPrefixOf u = false) :
    ∀ j, 0 < j → j < pre.length →
      (pre.drop j).isPrefixOf (u ++ rest) = false := by
  intro j hj1 hj2
  rw [isPrefixOf_append_of_le (pre.drop j) u rest
    (by rw [List.length_drop]; omega)]
  exact hd j hj1 hj2

/-! ### Masking the token-exchange command log line -/

/-- Log-line text up to the `Basic ` pattern. -/
def tkA : List Char :=
  "Executing command: curl -i -X POST -H \x22Authorization: ".data

/-- The quote-space after the credential. -/
def tkDQ : List Char := "\x22 ".data

/-- Between the `Basic` mask and the `device_code=` pattern. -/
def tkB : List Char :=
  "-d \x27grant_type=urn:ietf:params:oauth:grant-type:device_code&".data

/-- The ampersand after the device code. -/
def tkAmp : List Char := "&".data

/-- Tail after the code verifier. -/
def tkC : List Char :=
  "\x27 \x27https://apps.qiagenbioinformatics.eu/qiaoauth/oauth/token\x27".data

/-- `tkC` without its leading quote-space (consumed by the
`code_verifier` pattern's suffix). -/
def tkCt : List Char :=
  "\x27https://apps.qiagenbioinformatics.eu/qiaoauth/oauth/token\x27".data

theorem logTokenData (enc dc cv : String) :
    (execLogLine (access_token_cmd enc dc cv)).data =
      tkA ++ (rePre1 ++ (enc.data ++ (tkDQ ++ (tkB ++ (rePre2 ++ (dc.data ++
        (tkAmp ++ (rePre3 ++ (cv.data ++ tkC))))))))) := by
  simp [execLogLine, access_token_cmd, str_data_append, tkA, rePre1, tkDQ,
    tkB, rePre2, tkAmp, rePre3, tkC, List.append_assoc]

theorem token_pass1_skip (T : List Char) :
    maskSub rePre1 reSuf1 (tkA ++ (rePre1 ++ T)) =
      tkA ++ maskSub rePre1 reSuf1 (rePre1 ++ T) :=
  maskSub_skip_front rePre1 reSuf1 tkA rePre1 T (le_refl _) (by decide)

theorem token_pass1_match (e T : List Char)
    (hns : ∀ c ∈ e, c ≠ ' ') :
    maskSub rePre1 reSuf1 (rePre1 ++ (e ++ (tkDQ ++ T))) =
      rePre1 ++ maskStr ++ reSuf1 ++ maskSub rePre1 reSuf1 T := by
  have hdq : tkDQ = [dquote, ' '] := by decide
  have hsplit : e ++ (tkDQ ++ T) = (e ++ [dquote]) ++ (' ' :: T) := by
    rw [hdq]; simp
  have hfind : findK (e ++ (tkDQ ++ T)) reSuf1 = some (e.length + 1) := by
    refine findK_eq _ _ (e.length + 1) (e.length + 1) ?_ (by omega)
      (le_refl _) ?_ ?_
    · rw [hdq, maxRun_append e _ hns, show [dquote, ' '] ++ T =
        dquote :: (' ' :: T) from by simp,
        maxRun_cons_ne dquote _ (by decide), maxRun_cons_space]
    · rw [hsplit, show e.length + 1 = (e ++ [dquote]).length from by simp,
        List.drop_left, show reSuf1 = [' '] from by decide]
      simp [List.isPrefixOf]
    · intro j hj1 hj2
      omega
  rw [maskSub_match rePre1 reSuf1 _ _ (by decide) hfind]
  have hdrop : (e ++ (tkDQ ++ T)).drop (e.length + 1 + reSuf1.length) = T := by
    rw [show e ++ (tkDQ ++ T) = (e ++ tkDQ) ++ T from by simp,
      show e.length + 1 + reSuf1.length = (e ++ tkDQ).length from by
        rw [List.length_append, hdq, show reSuf1 = [' '] from by decide]
        simp,
      List.drop_left]
  rw [hdrop]

theorem token_pass1_rest (d c : List Char) (hd : ∀ ch ∈ d, ch ≠ ' ')
    (hc : ∀ ch ∈ c, ch ≠ ' ') :
    maskSub rePre1 reSuf1
        (tkB ++ (rePre2 ++ (d ++ (tkAmp ++ (rePre3 ++ (c ++ tkC)))))) =
      tkB ++ (rePre2 ++ (d ++ (tkAmp ++ (rePre3 ++ (c ++ tkC))))) := by
  have hdec1 : ∀ j, j < rePre1.length → (0 < j →
      (rePre1.drop j).isPrefixOf (tkAmp ++ rePre3) = false) := by decide
  have hdec2 : ∀ j, j < rePre1.length → (0 < j →
      (rePre1.drop j).isPrefixOf tkC = false) := by decide
  have hstep2 : maskSub rePre1 reSuf1 ((tkAmp ++ rePre3) ++ (c ++ tkC)) =
      (tkAmp ++ rePre3) ++ (c ++ tkC) := by
    rw [maskSub_skip_secret rePre1 reSuf1 (tkAmp ++ rePre3) c tkC ' '
      (by decide) (by decide) hc (by decide)
      (fun j hj1 hj2 => hdec2 j hj2 hj1),
      show maskSub rePre1 reSuf1 tkC = tkC from by decide]
  have hstep1 : maskSub rePre1 reSuf1
      ((tkB ++ rePre2) ++ (d ++ (tkAmp ++ (rePre3 ++ (c ++ tkC))))) =
      (tkB ++ rePre2) ++ (d ++
        maskSub rePre1 reSuf1 (tkAmp ++ (rePre3 ++ (c ++ tkC)))) := by
    refine maskSub_skip_secret rePre1 reSuf1 (tkB ++ rePre2) d _ ' '
      (by decide) (by decide) hd (by decide) ?_
    intro j hj1 hj2
    rw [show tkAmp ++ (rePre3 ++ (c ++ tkC)) =
      (tkAmp ++ rePre3) ++ (c ++ tkC) from by simp]
    exact drop_isPrefixOf_append_false rePre1 (tkAmp ++ rePre3) _
      (by decide) (fun j hja hjb => hdec1 j hjb hja) j hj1 hj2
  rw [show tkB ++ (rePre2 ++ (d ++ (tkAmp ++ (rePre3 ++ (c ++ tkC))))) =
    (tkB ++ rePre2) ++ (d ++ (tkAmp ++ (rePre3 ++ (c ++ tkC)))) from by simp,
    hstep1]
  rw [show tkAmp ++ (rePre3 ++ (c ++ tkC)) =
    (tkAmp ++ rePre3) ++ (c ++ tkC) from by simp, hstep2]

/-- Concrete log-line text before the `device_code=` pattern after the
`Basic` pass. -/
def tkP2 : List Char := tkA ++ rePre1 ++ maskStr ++ reSuf1 ++ tkB

/-- Concrete log-line text before the `code_verifier=` pattern after the
first two passes. -/
def tkP3 : List Char := tkP2 ++ rePre2 ++ maskStr ++ reSuf2

theorem token_pass1 (e d c : List Char) (hens : ∀ ch ∈ e, ch ≠ ' ')
    (hdns : ∀ ch ∈ d, ch ≠ ' ') (hcns : ∀ ch ∈ c, ch ≠ ' ') :
    maskSub rePre1 reSuf1 (tkA ++ (rePre1 ++ (e ++ (tkDQ ++ (tkB ++
        (rePre2 ++ (d ++ (tkAmp ++ (rePre3 ++ (c ++ tkC)))))))))) =
      tkP2 ++ (rePre2 ++ (d ++ (tkAmp ++ (rePre3 ++ (c ++ tkC))))) := by
  rw [token_pass1_skip, token_pass1_match e _ hens,
    token_pass1_rest d c hdns hcns]
  simp [tkP2, List.append_assoc]

theorem token_pass2 (d c : List Char) (hdne : d ≠ [])
    (hdns : ∀ ch ∈ d, ch ≠ ' ')
    (hcns : ∀ ch ∈ c, ch ≠ ' ') (hcamp : ∀ ch ∈ c, ch ≠ '&')
    (hceq : ∀ ch ∈ c, ch ≠ '=') :
    maskSub rePre2 reSuf2 (tkP2 ++ (rePre2 ++ (d ++ (tkAmp ++
        (rePre3 ++ (c ++ tkC)))))) =
      tkP3 ++ (rePre3 ++ (c ++ tkC)) := by
  have hamp : tkAmp = ['&'] := by decide
  have hfind : findK (d ++ (tkAmp ++ (rePre3 ++ (c ++ tkC)))) reSuf2 =
      some d.length := by
    refine findK_eq _ _ d.length (d.length + c.length + 16) ?_
      (by have := List.length_pos.mpr hdne; omega) (by omega) ?_ ?_
    · rw [maxRun_append d _ hdns,
        show tkAmp ++ (rePre3 ++ (c ++ tkC)) =
          '&' :: (rePre3 ++ (c ++ tkC)) from by rw [hamp]; simp,
        maxRun_cons_ne '&' _ (by decide),
        maxRun_append rePre3 _ (by decide),
        maxRun_append c _ hcns,
        show maxRun tkC = 1 from by decide,
        show rePre3.length = 14 from by decide]
      omega
    · rw [List.drop_left, show tkAmp ++ (rePre3 ++ (c ++ tkC)) =
        '&' :: (rePre3 ++ (c ++ tkC)) from by rw [hamp]; simp,
        show reSuf2 = ['&'] from by decide]
      simp [List.isPrefixOf]
    · intro j hj1 hj2
      apply not_prefixOf_of_get_ne reSuf2 _ j '&' (by decide)
      rw [show d ++ (tkAmp ++ (rePre3 ++ (c ++ tkC))) =
        (d ++ tkAmp) ++ (rePre3 ++ (c ++ tkC)) from by simp]
      apply getElem?_append_right_ne
      · intro ch hch
        rcases List.mem_append.mp hch with h | h
        · exact (by decide : ∀ x ∈ rePre3, x ≠ '&') ch h
        · rcases List.mem_append.mp h with h | h
          · exact hcamp ch h
          · exact (by decide : ∀ x ∈ tkC, x ≠ '&') ch h
      · rw [List.length_append, show tkAmp.length = 1 from by decide]
        omega
  have hdec2 : ∀ j, j < rePre2.length → (0 < j →
      (rePre2.drop j).isPrefixOf tkC = false) := by decide
  have htail : maskSub rePre2 reSuf2 (rePre3 ++ (c ++ tkC)) =
      rePre3 ++ (c ++ tkC) := by
    rw [maskSub_skip_secret rePre2 reSuf2 rePre3 c tkC '='
      (by decide) (by decide) hceq (by decide)
      (fun j hj1 hj2 => hdec2 j hj2 hj1),
      show maskSub rePre2 reSuf2 tkC = tkC from by decide]
  have hdrop : (d ++ (tkAmp ++ (rePre3 ++ (c ++ tkC)))).drop
      (d.length + reSuf2.length) = rePre3 ++ (c ++ tkC) := by
    rw [show d ++ (tkAmp ++ (rePre3 ++ (c ++ tkC))) =
      (d ++ tkAmp) ++ (rePre3 ++ (c ++ tkC)) from by simp,
      show d.length + reSuf2.length = (d ++ tkAmp).length from by
        rw [List.length_append, show tkAmp.length = 1 from by decide,
          show reSuf2.length = 1 from by decide],
      List.drop_left]
  rw [maskSub_skip_front rePre2 reSuf2 tkP2 rePre2 _ (le_refl _) (by decide),
    maskSub_match rePre2 reSuf2 _ d.length (by decide) hfind, hdrop, htail]
  simp [tkP3, List.append_assoc]

theorem token_pass3 (c : List Char) (hcne : c ≠ [])
    (hcns : ∀ ch ∈ c, ch ≠ ' ') :
    maskSub rePre3 reSuf3 (tkP3 ++ (rePre3 ++ (c ++ tkC))) =
      tkP3 ++ (rePre3 ++ (maskStr ++ (reSuf3 ++ tkCt))) := by
  have htkC : tkC = reSuf3 ++ tkCt := by decide
  have hfind : findK (c ++ tkC) reSuf3 = some c.length := by
    refine findK_eq _ _ c.length (c.length + 1) ?_
      (by have := List.length_pos.mpr hcne; omega) (by omega) ?_ ?_
    · rw [maxRun_append c _ hcns, show maxRun tkC = 1 from by decide]
    · rw [List.drop_left, htkC]
      exact isPrefixOf_append_self _ _
    · intro j hj1 hj2
      have hj : j = c.length + 1 := by omega
      subst hj
      apply not_prefixOf_of_get_ne reSuf3 _ _ squote (by decide)
      rw [List.getElem?_append_right (by omega),
        show c.length + 1 - c.length = 1 from by omega]
      decide
  have hdrop : (c ++ tkC).drop (c.length + reSuf3.length) = tkCt := by
    rw [show c ++ tkC = (c ++ reSuf3) ++ tkCt from by rw [htkC]; simp,
      show c.length + reSuf3.length = (c ++ reSuf3).length from by
        rw [List.length_append],
      List.drop_left]
  rw [maskSub_skip_front rePre3 reSuf3 tkP3 rePre3 _ (le_refl _) (by decide),
    maskSub_match rePre3 reSuf3 _ c.length (by decide) hfind, hdrop,
    show maskSub rePre3 reSuf3 tkCt = tkCt from by decide]
  simp [List.append_assoc]

/-- The token-exchange log line after filtering: all three secrets
replaced by `<MASKED_KEY>` (the quote that followed the Basic credential
is swallowed by the first pattern's match, exactly as `re.sub` does). -/
def access_token_cmd_masked : String :=
  "Executing command: curl -i -X POST -H \x22Authorization: Basic <MASKED_KEY> -d \x27grant_type=urn:ietf:params:oauth:grant-type:device_code&device_code=<MASKED_KEY>&code_verifier=<MASKED_KEY>\x27 \x27https://apps.qiagenbioinformatics.eu/qiaoauth/oauth/token\x27"

theorem token_cmd_filter_eq (enc dc cv : String) (henc : BasicCredStr enc)
    (hdc : SecretStr dc) (hcv : SecretStr cv) :
    SensitiveFormatter_filter (execLogLine (access_token_cmd enc dc cv)) =
      access_token_cmd_masked := by
  have hchars : sensitiveFilterChars
      (execLogLine (access_token_cmd enc dc cv)).data =
      access_token_cmd_masked.data := by
    unfold sensitiveFilterChars
    rw [logTokenData enc dc cv,
      token_pass1 enc.data dc.data cv.data
        (fun ch h => (henc.2 ch h).1)
        (fun ch h => (hdc.2 ch h).1) (fun ch h => (hcv.2 ch h).1),
      token_pass2 dc.data cv.data hdc.1
        (fun ch h => (hdc.2 ch h).1)
        (fun ch h => (hcv.2 ch h).1) (fun ch h => (hcv.2 ch h).2.1)
        (fun ch h => (hcv.2 ch h).2.2.2.2),
      token_pass3 cv.data hcv.1 (fun ch h => (hcv.2 ch h).1)]
    decide
  show String.mk (sensitiveFilterChars _) = _
  rw [hchars]

/-! ### Masking the device-code command log line -/

/-- Log-line text up to the `"client_id": ` pattern. -/
def dvA : List Char :=
  "Executing command: curl -i -X POST -H \x27Content-Type: application/json\x27 -d \x27\x7b".data

/-- The opening quote of a quoted JSON value. -/
def dvQ : List Char := "\x22".data

/-- Between the client id and the code challenge. -/
def dvMid : List Char := "\x22, \x22code_challenge\x22: \x22".data

/-- `dvMid` after the closing-quote/comma/space consumed by the
`client_id` pattern. -/
def dvMidT : List Char := "\x22code_challenge\x22: \x22".data

/-- Tail after the code challenge. -/
def dvC : List Char :=
  "\x22, \x22code_challenge_method\x22: \x22S256\x22\x7d\x27 \x27https://apps.qiagenbioinformatics.eu/qiaoauth/oauth/device/code\x27".data

/-- `dvC` after the closing-quote/comma/space consumed by the
`code_challenge` pattern. -/
def dvCt : List Char :=
  "\x22code_challenge_method\x22: \x22S256\x22\x7d\x27 \x27https://apps.qiagenbioinformatics.eu/qiaoauth/oauth/device/code\x27".data

/-- `dvA` with the `"client_id": "` text, the concrete region the first
four (non-matching) passes scan. -/
def dvHead : List Char := dvA ++ rePre5 ++ dvQ

theorem logDeviceData (cid chall : String) :
    (execLogLine (get_device_code_cmd cid chall)).data =
      dvHead ++ (cid.data ++ (dvMid ++ (chall.data ++ dvC))) := by
  simp [execLogLine, get_device_code_cmd, str_data_append, dvHead, dvA,
    rePre5, dvQ, dvMid, dvC, List.append_assoc]

/-- None of the first four patterns touches the device-code line. -/
theorem device_noop (pre suf : List Char) (lc : Char)
    (hlen : 1 ≤ pre.length) (hlast : pre[pre.length - 1]? = some lc)
    (hplen : pre.length - 1 ≤ dvMid.length)
    (h1a : ∀ i, i < dvHead.length → pre.isPrefixOf (dvHead.drop i) = false)
    (h1b : ∀ i, i < dvMid.length → pre.isPrefixOf (dvMid.drop i) = false)
    (h2a : ∀ j, j < pre.length → (0 < j →
      (pre.drop j).isPrefixOf dvMid = false))
    (h2b : ∀ j, j < pre.length → (0 < j →
      (pre.drop j).isPrefixOf dvC = false))
    (htail : maskSub pre suf dvC = dvC)
    (s1 s2 : List Char) (hs1 : ∀ c ∈ s1, c ≠ lc)
    (hs2 : ∀ c ∈ s2, c ≠ lc) :
    maskSub pre suf (dvHead ++ (s1 ++ (dvMid ++ (s2 ++ dvC)))) =
      dvHead ++ (s1 ++ (dvMid ++ (s2 ++ dvC))) := by
  rw [maskSub_skip_secret pre suf dvHead s1 _ lc hlen hlast hs1 h1a
    (fun j hj1 hj2 => drop_isPrefixOf_append_false pre dvMid _ hplen
      (fun j' hja hjb => h2a j' hjb hja) j hj1 hj2),
    maskSub_skip_secret pre suf dvMid s2 dvC lc hlen hlast hs2 h1b
      (fun j hj1 hj2 => h2b j hj2 hj1), htail]

/-- The `"client_id": ` pass masks the quoted client id: the regex
`[^ ]+` greedily takes `"{value}"`, backtracking to the comma, so the
quotes, value, comma and space are replaced by `<MASKED_KEY>, `. -/
theorem device_pass5 (s t : List Char) (hns : ∀ ch ∈ s, ch ≠ ' ') :
    maskSub rePre5 reSuf5
        (dvA ++ (rePre5 ++ (dvQ ++ (s ++ ([dquote, ',', ' '] ++ t))))) =
      dvA ++ (rePre5 ++ (maskStr ++ (reSuf5 ++ maskSub rePre5 reSuf5 t))) := by
  have hq : dvQ = [dquote] := by decide
  have hfind : findK (dvQ ++ (s ++ ([dquote, ',', ' '] ++ t))) reSuf5 =
      some (s.length + 2) := by
    refine findK_eq _ _ (s.length + 2) (s.length + 3) ?_ (by omega)
      (by omega) ?_ ?_
    · rw [hq, show [dquote] ++ (s ++ ([dquote, ',', ' '] ++ t)) =
        dquote :: (s ++ (dquote :: ',' :: ' ' :: t)) from by simp,
        maxRun_cons_ne dquote _ (by decide), maxRun_append s _ hns,
        maxRun_cons_ne dquote _ (by decide),
        maxRun_cons_ne ',' _ (by decide), maxRun_cons_space]
    · rw [show dvQ ++ (s ++ ([dquote, ',', ' '] ++ t)) =
        ((dvQ ++ s) ++ [dquote]) ++ (',' :: ' ' :: t) from by
          rw [hq]; simp,
        show s.length + 2 = ((dvQ ++ s) ++ [dquote]).length from by
          rw [hq]; simp <;> omega,
        List.drop_left, show reSuf5 = [',', ' '] from by decide]
      simp [List.isPrefixOf]
    · intro j hj1 hj2
      have hj : j = s.length + 3 := by omega
      subst hj
      apply not_prefixOf_of_get_ne reSuf5 _ _ ',' (by decide)
      rw [show dvQ ++ (s ++ ([dquote, ',', ' '] ++ t)) =
        ((dvQ ++ s) ++ [dquote, ',']) ++ (' ' :: t) from by
          rw [hq]; simp,
        List.getElem?_append_right (by rw [hq]; simp <;> omega)]
      rw [show s.length + 3 - ((dvQ ++ s) ++ [dquote, ',']).length = 0
        from by rw [hq]; simp <;> omega]
      simp
  have hdrop : (dvQ ++ (s ++ ([dquote, ',', ' '] ++ t))).drop
      (s.length + 2 + reSuf5.length) = t := by
    rw [show dvQ ++ (s ++ ([dquote, ',', ' '] ++ t)) =
      ((dvQ ++ s) ++ [dquote, ',', ' ']) ++ t from by rw [hq]; simp,
      show s.length + 2 + reSuf5.length =
        ((dvQ ++ s) ++ [dquote, ',', ' ']).length from by
        rw [show reSuf5.length = 2 from by decide, hq]
        simp <;> omega,
      List.drop_left]
  rw [maskSub_skip_front rePre5 reSuf5 dvA rePre5 _ (le_refl _) (by decide),
    maskSub_match rePre5 reSuf5 _ (s.length + 2) (by decide) hfind, hdrop]
  simp [List.append_assoc]

theorem device_pass5_rest (s2 : List Char) (hs2 : ∀ c ∈ s2, c ≠ ' ') :
    maskSub rePre5 reSuf5 (dvMidT ++ (s2 ++ dvC)) =
      dvMidT ++ (s2 ++ dvC) := by
  have hdec : ∀ j, j < rePre5.length → (0 < j →
      (rePre5.drop j).isPrefixOf dvC = false) := by decide
  rw [maskSub_skip_secret rePre5 reSuf5 dvMidT s2 dvC ' '
    (by decide) (by decide) hs2 (by decide)
    (fun j hj1 hj2 => hdec j hj2 hj1),
    show maskSub rePre5 reSuf5 dvC = dvC from by decide]

/-- Concrete log-line text before the `"code_challenge": ` pattern after
the `client_id` pass. -/
def dvP6 : List Char := dvA ++ rePre5 ++ maskStr ++ reSuf5

theorem device_pass6 (s t : List Char) (hns : ∀ ch ∈ s, ch ≠ ' ') :
    maskSub rePre6 reSuf6
        (dvP6 ++ (rePre6 ++ (dvQ ++ (s ++ ([dquote, ',', ' '] ++ t))))) =
      dvP6 ++ (rePre6 ++ (maskStr ++ (reSuf6 ++ maskSub rePre6 reSuf6 t))) := by
  have hq : dvQ = [dquote] := by decide
  have hfind : findK (dvQ ++ (s ++ ([dquote, ',', ' '] ++ t))) reSuf6 =
      some (s.length + 2) := by
    refine findK_eq _ _ (s.length + 2) (s.length + 3) ?_ (by omega)
      (by omega) ?_ ?_
    · rw [hq, show [dquote] ++ (s ++ ([dquote, ',', ' '] ++ t)) =
        dquote :: (s ++ (dquote :: ',' :: ' ' :: t)) from by simp,
        maxRun_cons_ne dquote _ (by decide), maxRun_append s _ hns,
        maxRun_cons_ne dquote _ (by decide),
        maxRun_cons_ne ',' _ (by decide), maxRun_cons_space]
    · rw [show dvQ ++ (s ++ ([dquote, ',', ' '] ++ t)) =
        ((dvQ ++ s) ++ [dquote]) ++ (',' :: ' ' :: t) from by
          rw [hq]; simp,
        show s.length + 2 = ((dvQ ++ s) ++ [dquote]).length from by
          rw [hq]; simp <;> omega,
        List.drop_left, show reSuf6 = [',', ' '] from by decide]
      simp [List.isPrefixOf]
    · intro j hj1 hj2
      have hj : j = s.length + 3 := by omega
      subst hj
      apply not_prefixOf_of_get_ne reSuf6 _ _ ',' (by decide)
      rw [show dvQ ++ (s ++ ([dquote, ',', ' '] ++ t)) =
        ((dvQ ++ s) ++ [dquote, ',']) ++ (' ' :: t) from by
          rw [hq]; simp,
        List.getElem?_append_right (by rw [hq]; simp <;> omega)]
      rw [show s.length + 3 - ((dvQ ++ s) ++ [dquote, ',']).length = 0
        from by rw [hq]; simp <;> omega]
      simp
  have hdrop : (dvQ ++ (s ++ ([dquote, ',', ' '] ++ t))).drop
      (s.length + 2 + reSuf6.length) = t := by
    rw [show dvQ ++ (s ++ ([dquote, ',', ' '] ++ t)) =
      ((dvQ ++ s) ++ [dquote, ',', ' ']) ++ t from by rw [hq]; simp,
      show s.length + 2 + reSuf6.length =
        ((dvQ ++ s) ++ [dquote, ',', ' ']).length from by
        rw [show reSuf6.length = 2 from by decide, hq]
        simp <;> omega,
      List.drop_left]
  rw [maskSub_skip_front rePre6 reSuf6 dvP6 rePre6 _ (le_refl _) (by decide),
    maskSub_match rePre6 reSuf6 _ (s.length + 2) (by decide) hfind, hdrop]
  simp [List.append_assoc]

/-- The device-code log line after filtering. -/
def get_device_code_cmd_masked : String :=
  "Executing command: curl -i -X POST -H \x27Content-Type: application/json\x27 -d \x27\x7b\x22client_id\x22: <MASKED_KEY>, \x22code_challenge\x22: <MASKED_KEY>, \x22code_challenge_method\x22: \x22S256\x22\x7d\x27 \x27https://apps.qiagenbioinformatics.eu/qiaoauth/oauth/device/code\x27"

theorem device_cmd_filter_eq (cid chall : String) (hcid : SecretStr cid)
    (hch : SecretStr chall) :
    SensitiveFormatter_filter (execLogLine (get_device_code_cmd cid chall)) =
      get_device_code_cmd_masked := by
  have hcidns : ∀ c ∈ cid.data, c ≠ ' ' := fun c h => (hcid.2 c h).1
  have hcideq : ∀ c ∈ cid.data, c ≠ '=' := fun c h => (hcid.2 c h).2.2.2.2
  have hchns : ∀ c ∈ chall.data, c ≠ ' ' := fun c h => (hch.2 c h).1
  have hcheq : ∀ c ∈ chall.data, c ≠ '=' := fun c h => (hch.2 c h).2.2.2.2
  have hchars : sensitiveFilterChars
      (execLogLine (get_device_code_cmd cid chall)).data =
      get_device_code_cmd_masked.data := by
    unfold sensitiveFilterChars
    rw [logDeviceData cid chall,
      device_noop rePre1 reSuf1 ' ' (by decide) (by decide) (by decide)
        (by decide) (by decide) (by decide) (by decide) (by decide)
        cid.data chall.data hcidns hchns,
      device_noop rePre2 reSuf2 '=' (by decide) (by decide) (by decide)
        (by decide) (by decide) (by decide) (by decide) (by decide)
        cid.data chall.data hcideq hcheq,
      device_noop rePre3 reSuf3 '=' (by decide) (by decide) (by decide)
        (by decide) (by decide) (by decide) (by decide) (by decide)
        cid.data chall.data hcideq hcheq,
      device_noop rePre4 reSuf4 ' ' (by decide) (by decide) (by decide)
        (by decide) (by decide) (by decide) (by decide) (by decide)
        cid.data chall.data hcidns hchns,
      show dvHead ++ (cid.data ++ (dvMid ++ (chall.data ++ dvC))) =
        dvA ++ (rePre5 ++ (dvQ ++ (cid.data ++ ([dquote, ',', ' '] ++
          (dvMidT ++ (chall.data ++ dvC)))))) from by
        rw [show dvMid = [dquote, ',', ' '] ++ dvMidT from by decide]
        simp [dvHead, List.append_assoc],
      device_pass5 cid.data _ hcidns,
      device_pass5_rest chall.data hchns,
      show dvA ++ (rePre5 ++ (maskStr ++ (reSuf5 ++
          (dvMidT ++ (chall.data ++ dvC))))) =
        dvP6 ++ (rePre6 ++ (dvQ ++ (chall.data ++ ([dquote, ',', ' '] ++
          dvCt)))) from by
        rw [show dvMidT = rePre6 ++ dvQ from by decide,
          show dvC = [dquote, ',', ' '] ++ dvCt from by decide]
        simp [dvP6, List.append_assoc],
      device_pass6 chall.data _ hchns,
      show maskSub rePre6 reSuf6 dvCt = dvCt from by decide]
    decide
  show String.mk (sensitiveFilterChars _) = _
  rw [hchars]

/-! ### Masking the sample-upload command log line -/

/-- Log-line text up to the `Authorization: ` pattern. -/
def upA : List Char := "Executing command: curl -X POST -H \x22".data

/-- Between the access token and the file path. -/
def upMid : List Char :=
  "\x22 -H \x22accept: application/json\x22 -H \x22Content-Type: multipart/form-data\x22 -F \x22file=@".data

/-- `upMid` after the quote-space consumed by the `Authorization`
pattern. -/
def upMidT : List Char :=
  "-H \x22accept: application/json\x22 -H \x22Content-Type: multipart/form-data\x22 -F \x22file=@".data

/-- Tail after the file path. -/
def upC : List Char :=
  ";type=application/zip\x22 \x22https://api.qiagenbioinformatics.eu/v2/sample\x22".data

/-- Concrete log-line text before the file path after the
`Authorization` pass. -/
def upP5 : List Char := upA ++ rePre4 ++ maskStr ++ reSuf4 ++ upMidT

theorem logUploadData (tok path : String) :
    (execLogLine (sample_upload_cmd tok path)).data =
      upA ++ (rePre4 ++ (tok.data ++ (upMid ++ (path.data ++ upC)))) := by
  simp [execLogLine, sample_upload_cmd, str_data_append, upA, rePre4,
    upMid, upC, List.append_assoc]

/-- A pattern that matches nowhere leaves a
`head ++ secret₁ ++ mid ++ secret₂ ++ tail` line unchanged. -/
theorem noop_two_secrets (pre suf : List Char) (lc : Char)
    (hd mid tl : List Char)
    (hlen : 1 ≤ pre.length) (hlast : pre[pre.length - 1]? = some lc)
    (hplen : pre.length - 1 ≤ mid.length)
    (h1a : ∀ i, i < hd.length → pre.isPrefixOf (hd.drop i) = false)
    (h1b : ∀ i, i < mid.length → pre.isPrefixOf (mid.drop i) = false)
    (h2a : ∀ j, j < pre.length → (0 < j →
      (pre.drop j).isPrefixOf mid = false))
    (h2b : ∀ j, j < pre.length → (0 < j →
      (pre.drop j).isPrefixOf tl = false))
    (htail : maskSub pre suf tl = tl)
    (s1 s2 : List Char) (hs1 : ∀ c ∈ s1, c ≠ lc)
    (hs2 : ∀ c ∈ s2, c ≠ lc) :
    maskSub pre suf (hd ++ (s1 ++ (mid ++ (s2 ++ tl)))) =
      hd ++ (s1 ++ (mid ++ (s2 ++ tl))) := by
  rw [maskSub_skip_secret pre suf hd s1 _ lc hlen hlast hs1 h1a
    (fun j hj1 hj2 => drop_isPrefixOf_append_false pre mid _ hplen
      (fun j' hja hjb => h2a j' hjb hja) j hj1 hj2),
    maskSub_skip_secret pre suf mid s2 tl lc hlen hlast hs2 h1b
      (fun j hj1 hj2 => h2b j hj2 hj1), htail]

/-- A pattern that matches nowhere leaves a `head ++ secret ++ tail`
line unchanged. -/
theorem noop_one_secret (pre suf : List Char) (lc : Char)
    (hd tl : List Char)
    (hlen : 1 ≤ pre.length) (hlast : pre[pre.length - 1]? = some lc)
    (h1a : ∀ i, i < hd.length → pre.isPrefixOf (hd.drop i) = false)
    (h2b : ∀ j, j < pre.length → (0 < j →
      (pre.drop j).isPrefixOf tl = false))
    (htail : maskSub pre suf tl = tl)
    (s : List Char) (hs : ∀ c ∈ s, c ≠ lc) :
    maskSub pre suf (hd ++ (s ++ tl)) = hd ++ (s ++ tl) := by
  rw [maskSub_skip_secret pre suf hd s tl lc hlen hlast hs h1a
    (fun j hj1 hj2 => h2b j hj2 hj1), htail]

/-- The `Authorization: ` pass masks the bearer token. -/
theorem upload_pass4 (s t : List Char) (hne : s ≠ [])
    (hns : ∀ ch ∈ s, ch ≠ ' ') :
    maskSub rePre4 reSuf4 (upA ++ (rePre4 ++ (s ++ ([dquote, ' '] ++ t)))) =
      upA ++ (rePre4 ++ (maskStr ++ (reSuf4 ++ maskSub rePre4 reSuf4 t))) := by
  have hfind : findK (s ++ ([dquote, ' '] ++ t)) reSuf4 = some s.length := by
    refine findK_eq _ _ s.length (s.length + 1) ?_
      (by have := List.length_pos.mpr hne; omega) (by omega) ?_ ?_
    · rw [show s ++ ([dquote, ' '] ++ t) = s ++ (dquote :: (' ' :: t))
        from by simp, maxRun_append s _ hns,
        maxRun_cons_ne dquote _ (by decide), maxRun_cons_space]
    · rw [List.drop_left, show reSuf4 = [dquote, ' '] from by decide]
      simp [List.isPrefixOf]
    · intro j hj1 hj2
      have hj : j = s.length + 1 := by omega
      subst hj
      apply not_prefixOf_of_get_ne reSuf4 _ _ dquote (by decide)
      rw [show s ++ ([dquote, ' '] ++ t) =
        (s ++ [dquote]) ++ (' ' :: t) from by simp,
        List.getElem?_append_right (by simp),
        show s.length + 1 - (s ++ [dquote]).length = 0 from by
          simp <;> omega]
      simp
      decide
  have hdrop : (s ++ ([dquote, ' '] ++ t)).drop
      (s.length + reSuf4.length) = t := by
    rw [show s ++ ([dquote, ' '] ++ t) = (s ++ [dquote, ' ']) ++ t
      from by simp,
      show s.length + reSuf4.length = (s ++ [dquote, ' ']).length from by
        rw [show reSuf4.length = 2 from by decide]
        simp,
      List.drop_left]
  rw [maskSub_skip_front rePre4 reSuf4 upA rePre4 _ (le_refl _) (by decide),
    maskSub_match rePre4 reSuf4 _ s.length (by decide) hfind, hdrop]
  simp [List.append_assoc]

/-- The sample-upload log line after filtering: the access token is
masked; the file path (not a secret) remains. -/
def sample_upload_cmd_masked (filepath_to_upload : String) : String :=
  "Executing command: curl -X POST -H \x22Authorization: <MASKED_KEY>\x22 -H \x22accept: application/json\x22 -H \x22Content-Type: multipart/form-data\x22 -F \x22file=@" ++
    filepath_to_upload ++
    ";type=application/zip\x22 \x22https://api.qiagenbioinformatics.eu/v2/sample\x22"

theorem upload_cmd_filter_eq (tok path : String) (htok : SecretStr tok)
    (hpath : SecretStr path) :
    SensitiveFormatter_filter (execLogLine (sample_upload_cmd tok path)) =
      sample_upload_cmd_masked path := by
  have htokns : ∀ c ∈ tok.data, c ≠ ' ' := fun c h => (htok.2 c h).1
  have htokeq : ∀ c ∈ tok.data, c ≠ '=' := fun c h => (htok.2 c h).2.2.2.2
  have hpns : ∀ c ∈ path.data, c ≠ ' ' := fun c h => (hpath.2 c h).1
  have hpeq : ∀ c ∈ path.data, c ≠ '=' := fun c h => (hpath.2 c h).2.2.2.2
  have hchars : sensitiveFilterChars
      (execLogLine (sample_upload_cmd tok path)).data =
      (sample_upload_cmd_masked path).data := by
    unfold sensitiveFilterChars
    rw [logUploadData tok path,
      show upA ++ (rePre4 ++ (tok.data ++ (upMid ++ (path.data ++ upC)))) =
        (upA ++ rePre4) ++ (tok.data ++ (upMid ++ (path.data ++ upC)))
        from by simp [List.append_assoc],
      noop_two_secrets rePre1 reSuf1 ' ' (upA ++ rePre4) upMid upC
        (by decide) (by decide) (by decide) (by decide) (by decide)
        (by decide) (by decide) (by decide)
        tok.data path.data htokns hpns,
      noop_two_secrets rePre2 reSuf2 '=' (upA ++ rePre4) upMid upC
        (by decide) (by decide) (by decide) (by decide) (by decide)
        (by decide) (by decide) (by decide)
        tok.data path.data htokeq hpeq,
      noop_two_secrets rePre3 reSuf3 '=' (upA ++ rePre4) upMid upC
        (by decide) (by decide) (by decide) (by decide) (by decide)
        (by decide) (by decide) (by decide)
        tok.data path.data htokeq hpeq,
      show (upA ++ rePre4) ++ (tok.data ++ (upMid ++ (path.data ++ upC))) =
        upA ++ (rePre4 ++ (tok.data ++ ([dquote, ' '] ++
          (upMidT ++ (path.data ++ upC))))) from by
        rw [show upMid = [dquote, ' '] ++ upMidT from by decide]
        simp [List.append_assoc],
      upload_pass4 tok.data _ htok.1 htokns,
      noop_one_secret rePre4 reSuf4 ' ' upMidT upC (by decide) (by decide)
        (by decide) (by decide) (by decide) path.data hpns,
      show upA ++ (rePre4 ++ (maskStr ++ (reSuf4 ++
          (upMidT ++ (path.data ++ upC))))) =
        upP5 ++ (path.data ++ upC) from by
        simp [upP5, List.append_assoc],
      noop_one_secret rePre5 reSuf5 ' ' upP5 upC (by decide) (by decide)
        (by decide) (by decide) (by decide) path.data hpns,
      noop_one_secret rePre6 reSuf6 ' ' upP5 upC (by decide) (by decide)
        (by decide) (by decide) (by decide) path.data hpns,
      show (sample_upload_cmd_masked path).data = upP5 ++ (path.data ++ upC)
        from by
        simp [sample_upload_cmd_masked, str_data_append, upP5, upA, rePre4,
          maskStr, reSuf4, upMidT, upC, List.append_assoc]]
  show String.mk (sensitiveFilterChars _) = _
  rw [hchars]

/-! ### C10: the sensitive filter masks the secrets of the command log
lines -/

/-- C10: For each of the three command log lines the tools emit (token
exchange, device-code request, sample upload), the
`SensitiveFormatter` filter replaces each embedded secret — the Basic
authorization credential, `device_code`, `code_verifier`, `client_id`,
`code_challenge` and the bearer access token — by `<MASKED_KEY>`: for
all secrets over the safe alphabet (no space, `&`, quote or `=`; the
base64 credential may contain `=`), the filtered line equals a fixed
masked string that does not depend on the secret values. -/
theorem sensitive_filter_command_lines_masked
    (enc dc cv cid chall tok path : String)
    (henc : BasicCredStr enc) (hdc : SecretStr dc) (hcv : SecretStr cv)
    (hcid : SecretStr cid) (hchall : SecretStr chall)
    (htok : SecretStr tok) (hpath : SecretStr path) :
    SensitiveFormatter_filter (execLogLine (access_token_cmd enc dc cv)) =
      access_token_cmd_masked ∧
    SensitiveFormatter_filter (execLogLine (get_device_code_cmd cid chall)) =
      get_device_code_cmd_masked ∧
    SensitiveFormatter_filter (execLogLine (sample_upload_cmd tok path)) =
      sample_upload_cmd_masked path :=
  ⟨token_cmd_filter_eq enc dc cv henc hdc hcv,
   device_cmd_filter_eq cid chall hcid hchall,
   upload_cmd_filter_eq tok path htok hpath⟩

theorem sensitive_filter_command_lines_masked_witness :
    (BasicCredStr "QQ==" ∧ SecretStr "DD" ∧ SecretStr "VV" ∧
     SecretStr "CI" ∧ SecretStr "CH" ∧ SecretStr "TK" ∧
     SecretStr "/tmp/s.zip") ∧
    (SensitiveFormatter_filter
        (execLogLine (access_token_cmd "QQ==" "DD" "VV")) =
      access_token_cmd_masked ∧
    SensitiveFormatter_filter
        (execLogLine (get_device_code_cmd "CI" "CH")) =
      get_device_code_cmd_masked ∧
    SensitiveFormatter_filter
        (execLogLine (sample_upload_cmd "TK" "/tmp/s.zip")) =
      sample_upload_cmd_masked "/tmp/s.zip") :=
  ⟨⟨⟨by decide, by decide⟩, ⟨by decide, by decide⟩, ⟨by decide, by decide⟩,
    ⟨by decide, by decide⟩, ⟨by decide, by decide⟩, ⟨by decide, by decide⟩,
    ⟨by decide, by decide⟩⟩,
   sensitive_filter_command_lines_masked "QQ==" "DD" "VV" "CI" "CH" "TK"
     "/tmp/s.zip" ⟨by decide, by decide⟩ ⟨by decide, by decide⟩
     ⟨by decide, by decide⟩ ⟨by decide, by decide⟩ ⟨by decide, by decide⟩
     ⟨by decide, by decide⟩ ⟨by decide, by decide⟩⟩

/-- C10 counterexample to the spec's \x22regardless of where in the
message the secret occurs\x22: a `device_code` value at the end of a
message, with no trailing `&`, falls outside the pattern
`device_code=[^ ]+&` and survives the filter verbatim. -/
theorem sensitive_filter_bare_secret_cex :
    strContains (SensitiveFormatter_filter "device_code=TOPSECRET123")
      "TOPSECRET123" = true := by
  decide
